import Mathlib

/-!
Verification development for the ClawStream "true live streaming" server
(`server/index.js`).  The JavaScript source is shallowly embedded: strings
are `List Char`, server timestamps are `Nat` milliseconds, time differences
are `Int`, and every handler becomes a pure state-transition function.
The floating-point lip-sync amplitude (a sum of sines) is the one part of
the code outside the embedding; it is passed in as an abstract function
`lip` and only its clamping to [0,1] is modelled, since no claim depends on
its value.
-/

namespace ClawStream

/-- Strings from the JS source are modelled as lists of characters. -/
abbrev Str := List Char

/-- JS `\s` whitespace, restricted to the common whitespace characters. -/
def isWs (c : Char) : Bool := c = ' ' || c = '\t' || c = '\n' || c = '\r'

/-- Lowercasing a string, modelling the effect of the `/i` regex flag. -/
def lowerStr (s : Str) : Str := s.map Char.toLower

/-- Boolean list-prefix test (own definition, used for regex matching). -/
def pfxB : Str → Str → Bool
  | [], _ => true
  | _ :: _, [] => false
  | a :: as, b :: bs => a == b && pfxB as bs

theorem pfxB_iff (p s : Str) : pfxB p s = true ↔ ∃ r, s = p ++ r := by
  induction p generalizing s with
  | nil => simp [pfxB]
  | cons a as ih =>
    cases s with
    | nil => simp [pfxB]
    | cons b bs =>
      simp only [pfxB, Bool.and_eq_true, beq_iff_eq, ih]
      constructor
      · rintro ⟨rfl, r, rfl⟩; exact ⟨r, rfl⟩
      · rintro ⟨r, h⟩
        injection h with h1 h2
        exact ⟨h1.symm, r, h2⟩

/-! ### Tag vocabularies (from `server/index.js`, `Stream` class) -/

/-- Expression tags, from `parseExpression` (line 291). -/
def expressionTags : List Str :=
  ["neutral", "happy", "excited", "sad", "angry", "surprised", "thinking",
   "confused", "wink", "love", "smug", "sleepy"].map String.toList

/-- Tier-1 "special ability" gesture tags, from `parseGesture` (line 301). -/
def specialTags : List Str :=
  ["magic_heart", "magic", "trick", "rabbit", "heart", "love"].map String.toList

/-- Tier-2 body-motion gesture tags, from `parseGesture` (line 305). -/
def motionTags : List Str :=
  ["dance", "shy", "cute", "flirt", "think", "wonder", "doubt", "bow",
   "shrug", "nod", "shake"].map String.toList

/-- Tier-3 arm-movement gesture tags, from `parseGesture` (line 309). -/
def armTags : List Str :=
  ["wave", "point", "raise_left_hand", "raise_right_hand", "raise_both_hands",
   "raise_left_arm", "raise_right_arm", "lower_left_arm", "lower_right_arm",
   "lower_arms"].map String.toList

/-- Look-direction tags, from `parseLook` (line 317). -/
def lookTags : List Str :=
  ["look_left", "look_right", "look_up", "look_down"].map String.toList

/-- The gesture alternation used by `stripTags` (line 335). -/
def gestureStripTags : List Str :=
  ["wave", "nod", "shake", "dance", "bow", "shrug", "point", "think",
   "wonder", "doubt", "shy", "cute", "flirt", "heart", "love", "magic_heart",
   "magic", "trick", "rabbit", "raise_left_hand", "raise_right_hand",
   "raise_both_hands", "raise_left_arm", "raise_right_arm", "lower_left_arm",
   "lower_right_arm", "lower_arms"].map String.toList

/-- Special-effect tags stripped by `stripTags` (line 339). -/
def effectTags : List Str :=
  ["hearts", "magic", "explosion", "aura"].map String.toList

/-! ### Regex-style tag matching -/

/-- Does the bracketed tag `[t]` match (case-insensitively) at the head of
`s`?  Models the regex `\[(t)\]` with the `/i` flag anchored at one
position. -/
def tagHere (s : Str) (t : Str) : Bool := pfxB (('[' :: t) ++ [']']) (lowerStr s)

/-- First alternative of the alternation `\[(t1|t2|...)\]` that yields a
full match at the head of `s` (JS regex alternation order). -/
def matchAlt (tags : List Str) (s : Str) : Option Str := tags.find? (tagHere s)

/-- `String.prototype.match` with a tag alternation: scan positions left to
right, return the first (earliest) full match. -/
def findFirstTag (tags : List Str) : Str → Option Str
  | [] => none
  | c :: rest =>
    match matchAlt tags (c :: rest) with
    | some t => some t
    | none => findFirstTag tags rest

/-- The bracketed tag `[t]` matches at position `i` of `s`. -/
def tagMatchAt (s : Str) (i : Nat) (t : Str) : Bool := tagHere (List.drop i s) t

/-- `Stream.parseExpression` (line 290): first expression tag, default
`neutral`. -/
def parseExpression (s : Str) : Str :=
  (findFirstTag expressionTags s).getD ("neutral".toList)

/-- `Stream.parseGesture` (line 296): three priority tiers, each tier a
single regex `match`. -/
def parseGesture (s : Str) : Option Str :=
  match findFirstTag specialTags s with
  | some t => some t
  | none =>
    match findFirstTag motionTags s with
    | some t => some t
    | none => findFirstTag armTags s

/-- `Stream.parseLook` (line 316): first look tag mapped to a fixed vector. -/
def parseLook (s : Str) : ℚ × ℚ :=
  match findFirstTag lookTags s with
  | some t =>
    if t = "look_left".toList then (-(4/5 : ℚ), 0)
    else if t = "look_right".toList then ((4/5 : ℚ), 0)
    else if t = "look_up".toList then (0, -(4/5 : ℚ))
    else if t = "look_down".toList then (0, (4/5 : ℚ))
    else (0, 0)
  | none => (0, 0)

/-! ### Characterisation of `findFirstTag` -/

theorem matchAlt_eq_none_iff (tags : List Str) (s : Str) :
    matchAlt tags s = none ↔ ∀ t ∈ tags, tagHere s t = false := by
  simp [matchAlt, List.find?_eq_none]

theorem matchAlt_eq_some (tags : List Str) (s : Str) (t : Str)
    (h : matchAlt tags s = some t) : t ∈ tags ∧ tagHere s t = true :=
  ⟨List.mem_of_find?_eq_some h, List.find?_some h⟩

theorem tagHere_nil (t : Str) : tagHere [] t = false := by
  simp [tagHere, lowerStr, List.cons_append, pfxB]

theorem matchAlt_nil (tags : List Str) : matchAlt tags [] = none := by
  simp [matchAlt, List.find?_eq_none, tagHere_nil]

theorem findFirstTag_eq_none_iff (tags : List Str) (s : Str) :
    findFirstTag tags s = none ↔ ∀ i, matchAlt tags (List.drop i s) = none := by
  induction s with
  | nil =>
    simp only [findFirstTag, List.drop_nil, true_iff]
    intro i
    exact matchAlt_nil tags
  | cons c rest ih =>
    simp only [findFirstTag]
    cases hm : matchAlt tags (c :: rest) with
    | some t =>
      simp only [reduceCtorEq, false_iff, not_forall]
      refine ⟨0, ?_⟩
      simp [hm]
    | none =>
      simp only [ih]
      constructor
      · intro h i
        cases i with
        | zero => simpa using hm
        | succ j => simpa using h j
      · intro h j
        simpa using h (j + 1)

theorem findFirstTag_eq_some (tags : List Str) (s : Str) (t : Str)
    (h : findFirstTag tags s = some t) :
    ∃ i, matchAlt tags (List.drop i s) = some t ∧
      ∀ j, j < i → matchAlt tags (List.drop j s) = none := by
  induction s with
  | nil => simp [findFirstTag] at h
  | cons c rest ih =>
    simp only [findFirstTag] at h
    cases hm : matchAlt tags (c :: rest) with
    | some u =>
      rw [hm] at h
      refine ⟨0, ?_, by omega⟩
      simpa [hm] using h
    | none =>
      rw [hm] at h
      obtain ⟨i, h1, h2⟩ := ih h
      refine ⟨i + 1, by simpa using h1, ?_⟩
      intro j hj
      cases j with
      | zero => simpa using hm
      | succ k => simpa using h2 k (by omega)

theorem findFirstTag_isSome_of_match (tags : List Str) (s : Str) (i : Nat)
    (t : Str) (ht : t ∈ tags) (hm : tagMatchAt s i t = true) :
    findFirstTag tags s ≠ none := by
  intro hnone
  have := (findFirstTag_eq_none_iff tags s).1 hnone i
  have h2 := (matchAlt_eq_none_iff tags (List.drop i s)).1 this t ht
  rw [tagMatchAt] at hm
  rw [hm] at h2
  simp at h2

/-! ### Global regex replacement with the empty string

`String.prototype.replace` with a `/g` pattern and replacement `''` scans
the string left to right; on a match it skips past the matched text and
continues scanning after it (the output is never rescanned).  Each matcher
returns the total length of the match at the current position. -/

/-- Scanner for one global-replace-with-empty pass; `skip` counts
characters of a current match still to be consumed. -/
def replaceGo (m : Str → Option Nat) : Nat → Str → Str
  | _, [] => []
  | Nat.succ skip, _ :: rest => replaceGo m skip rest
  | 0, c :: rest =>
    match m (c :: rest) with
    | some n => replaceGo m (n - 1) rest
    | none => c :: replaceGo m 0 rest

/-- One global-replace-with-empty pass.  `m s` returns the length of the
match at the head of `s`, if any. -/
def replaceGlobal (m : Str → Option Nat) (s : Str) : Str := replaceGo m 0 s

/-- Matcher for a tag alternation `\[(t1|...|tk)\]/gi`. -/
def altLen (tags : List Str) (s : Str) : Option Nat :=
  (matchAlt tags s).map (fun t => t.length + 2)

/-- Characters matched by `[a-z_]` under the `/i` flag. -/
def isTagChar (c : Char) : Bool :=
  (decide ('a' ≤ c.toLower) && decide (c.toLower ≤ 'z')) || c = '_'

/-- Matcher for the defensive catch-all `\[[a-z_]+\]/gi` (line 345). -/
def catchAllLen : Str → Option Nat
  | [] => none
  | c :: rest =>
    if c = '[' then
      let run := rest.takeWhile isTagChar
      if run = [] then none
      else
        match List.drop run.length rest with
        | ']' :: _ => some (run.length + 2)
        | _ => none
    else none

/-- Matcher for `\[kind:[^\]]+\]/gi` (the GIF and YouTube tags,
lines 341-343). -/
def mediaLen (kind : Str) (s : Str) : Option Nat :=
  let pat := '[' :: (kind ++ [':'])
  if pfxB pat (lowerStr s) then
    let rest := List.drop pat.length s
    let run := rest.takeWhile (fun c => c != ']')
    if run = [] then none
    else
      match List.drop run.length rest with
      | ']' :: _ => some (pat.length + run.length + 1)
      | _ => none
  else none

theorem length_dropWhile_le' (p : Char → Bool) (l : Str) :
    (l.dropWhile p).length ≤ l.length := by
  induction l with
  | nil => simp
  | cons c rest ih =>
    by_cases h : p c = true
    · simp only [List.dropWhile_cons, h, if_true]
      exact Nat.le_trans ih (by simp)
    · simp [List.dropWhile_cons, h]

/-- Scanner for `\s+` → `' '`; the flag records being inside a whitespace
run whose single replacement space was already emitted. -/
def collapseGo : Bool → Str → Str
  | _, [] => []
  | inRun, c :: rest =>
    if isWs c then
      if inRun then collapseGo true rest
      else ' ' :: collapseGo true rest
    else c :: collapseGo false rest

/-- `\s+` → `' '` (line 346): every maximal whitespace run becomes one
space. -/
def collapseWs (s : Str) : Str := collapseGo false s

/-- `String.prototype.trim` (line 347). -/
def trimWs (s : Str) : Str :=
  ((s.dropWhile isWs).reverse.dropWhile isWs).reverse

/-- `Stream.stripTags` (lines 330-348): seven sequential global replaces
followed by whitespace collapsing and trimming. -/
def stripTags (s : Str) : Str :=
  trimWs (collapseWs
    (replaceGlobal catchAllLen
      (replaceGlobal (mediaLen ("youtube".toList))
        (replaceGlobal (mediaLen ("gif".toList))
          (replaceGlobal (altLen effectTags)
            (replaceGlobal (altLen lookTags)
              (replaceGlobal (altLen gestureStripTags)
                (replaceGlobal (altLen expressionTags) s))))))))

/-! ### The subtitle chunker (`Stream.splitIntoSubtitleChunks`, line 356) -/

/-- Scanner for whitespace-separated words; `acc` holds the current word,
reversed (`[]` = between words). -/
def wordsGo (acc : Str) : Str → List Str
  | [] => if acc = [] then [] else [acc.reverse]
  | c :: rest =>
    if isWs c then
      if acc = [] then wordsGo [] rest else acc.reverse :: wordsGo [] rest
    else wordsGo (c :: acc) rest

/-- The list of (nonempty) whitespace-separated words of a string. -/
def wordsOf (s : Str) : List Str := wordsGo [] s

/-- Sentence-ending punctuation (the regex class `[.!?]`). -/
def isSentEnd (c : Char) : Bool := c = '.' || c = '!' || c = '?'

/-- Scanner for `text.split(/(?<=[.!?])\s+/)`: a maximal whitespace run
whose (lookbehind) predecessor is sentence-ending punctuation separates
two sentences.  `acc` holds the current sentence, reversed; `skipWs` means
the scanner is still inside the separator's whitespace run. -/
def sentGo (skipWs : Bool) (acc : Str) : Str → List Str
  | [] => [acc.reverse]
  | c :: rest =>
    if skipWs && isWs c then sentGo true acc rest
    else if isWs c && (match acc with | p :: _ => isSentEnd p | [] => false) then
      acc.reverse :: sentGo true [] rest
    else sentGo false (c :: acc) rest

/-- `text.split(/(?<=[.!?])\s+/)`. -/
def splitSentences (s : Str) : List Str := sentGo false [] s

/-- Word count as computed by `sentence.trim().split(/\s+/).length`: JS
splitting the empty string yields `[""]`, i.e. length 1. -/
def jsWords (t : Str) : Nat := if t = [] then 1 else (wordsOf t).length

/-- The chunk-accumulating loop of `splitIntoSubtitleChunks` for long
sentences: push each word onto the current chunk `cur` (kept reversed),
flush as soon as it holds 8 words, flush the remainder at the end. -/
def blocksGo (cur : List Str) : List Str → List (List Str)
  | [] => if cur = [] then [] else [cur.reverse]
  | w :: ws =>
    if 8 ≤ (w :: cur).length then (w :: cur).reverse :: blocksGo [] ws
    else blocksGo (w :: cur) ws

/-- Greedy grouping of a word list into blocks of 8 (the inner loop of
`splitIntoSubtitleChunks`). -/
def blocks8 (ws : List Str) : List (List Str) := blocksGo [] ws

/-- `chunk.join(' ')`. -/
def joinSp : List Str → Str
  | [] => []
  | [w] => w
  | w :: ws => w ++ ' ' :: joinSp ws

/-- The per-sentence body of the chunker loop (lines 360-376). -/
def processSentence (sent : Str) : List Str :=
  let t := trimWs sent
  if jsWords t ≤ 10 then (if t = [] then [] else [t])
  else (blocks8 (wordsOf t)).map joinSp

/-- `Stream.splitIntoSubtitleChunks` (lines 356-378). -/
def splitIntoSubtitleChunks (text : Str) : List Str :=
  (((splitSentences text).map processSentence).flatten).filter (fun c => c ≠ [])

/-! ### Broadcast state and the stream session (`BroadcastState`, `Stream`) -/

/-- A chat message as stored in `chatHistory` / `currentMessage`.  The
`id`/`streamId` fields (random UUIDs and the stream id) do not matter for
any claim and are omitted. -/
structure ChatMsg where
  username : Str
  text : Str
  kind : Str
  timestamp : Nat
deriving DecidableEq

/-- `BroadcastState` (lines 100-121). -/
structure BroadcastState where
  audioUrl : Option Str
  audioStartTime : Nat
  audioDuration : Nat
  isPlaying : Bool
  mouthOpen : ℚ
  expression : Str
  gesture : Option Str
  lookX : ℚ
  lookY : ℚ
  subtitleText : Str
  subtitleVisible : Bool
  currentMessage : Option ChatMsg
deriving DecidableEq

/-- The `BroadcastState` constructor (lines 101-121). -/
def BroadcastState.init : BroadcastState where
  audioUrl := none
  audioStartTime := 0
  audioDuration := 0
  isPlaying := false
  mouthOpen := 0
  expression := "neutral".toList
  gesture := none
  lookX := 0
  lookY := 0
  subtitleText := []
  subtitleVisible := false
  currentMessage := none

/-- The wire snapshot produced by `BroadcastState.toJSON` (lines 123-147). -/
structure Snapshot where
  audioUrl : Option Str
  audioStartTime : Nat
  audioDuration : Nat
  isPlaying : Bool
  position : Int
  mouthOpen : ℚ
  expression : Str
  gesture : Option Str
  lookX : ℚ
  lookY : ℚ
  subtitleText : Str
  subtitleVisible : Bool
  message : Option ChatMsg
  serverTime : Nat
deriving DecidableEq

/-- `BroadcastState.toJSON` (lines 123-147), with `Date.now()` passed in as
`now`. -/
def BroadcastState.toJSON (b : BroadcastState) (now : Nat) : Snapshot where
  audioUrl := b.audioUrl
  audioStartTime := b.audioStartTime
  audioDuration := b.audioDuration
  isPlaying := b.isPlaying
  position := if b.isPlaying then (now : Int) - (b.audioStartTime : Int) else 0
  mouthOpen := b.mouthOpen
  expression := b.expression
  gesture := b.gesture
  lookX := b.lookX
  lookY := b.lookY
  subtitleText := b.subtitleText
  subtitleVisible := b.subtitleVisible
  message := b.currentMessage
  serverTime := now

/-- The `Stream` session (lines 151-174).  `viewers` models the size of the
socket-id set (each join adds a fresh socket id); `live` models
`state === 'live'`; the broadcast interval handle is implicit in `live`.
`config`/`socketId` carry no claim-relevant data and are omitted. -/
structure Stream where
  id : Str
  agentName : Str
  live : Bool
  viewers : Nat
  chatHistory : List ChatMsg
  totalViewers : Nat
  peakViewers : Nat
  messageCount : Nat
  broadcast : BroadcastState
  subtitleChunks : List Str
  startedAt : Option Nat
deriving DecidableEq

/-- The `Stream` constructor (lines 152-174). -/
def Stream.init (id agentName : Str) : Stream where
  id := id
  agentName := agentName
  live := false
  viewers := 0
  chatHistory := []
  totalViewers := 0
  peakViewers := 0
  messageCount := 0
  broadcast := BroadcastState.init
  subtitleChunks := []
  startedAt := none

/-- Subtitle chunk selection inside `broadcastTick` (lines 231-238):
`min(len-1, floor(progress * len))` with `progress = elapsed/duration`.
Assumes `chunks` nonempty (guarded by the caller). -/
def chunkIndexAt (chunks : List Str) (elapsed : Int) (duration : Nat) : Nat :=
  (min ((chunks.length : Int) - 1)
    ((elapsed * chunks.length) / (duration : Int))).toNat

/-- `Stream.broadcastTick` (lines 198-244) at server time `now`.  Returns
the updated stream and the snapshot emitted to the viewer room (if any).
`lip` abstracts the floating-point sine lip-sync amplitude (lines 216-228);
only its clamping to [0,1] is modelled. -/
def broadcastTick (lip : Int → Nat → ℚ) (now : Nat) (s : Stream) :
    Stream × Option Snapshot :=
  if s.viewers = 0 then (s, none)
  else
    let b := s.broadcast
    if b.isPlaying then
      let elapsed : Int := (now : Int) - (b.audioStartTime : Int)
      if (b.audioDuration : Int) ≤ elapsed then
        let b' := { b with
          isPlaying := false
          mouthOpen := 0
          subtitleVisible := false
          audioUrl := none
          gesture := none }
        ({ s with broadcast := b' }, some (b'.toJSON now))
      else
        let b' := { b with
          mouthOpen := max 0 (min 1 (lip elapsed b.audioDuration))
          subtitleText :=
            if s.subtitleChunks ≠ [] then
              s.subtitleChunks.getD (chunkIndexAt s.subtitleChunks elapsed b.audioDuration) []
            else b.subtitleText
          subtitleVisible := if s.subtitleChunks ≠ [] then true else b.subtitleVisible }
        ({ s with broadcast := b' }, some (b'.toJSON now))
    else (s, some (b.toJSON now))

/-- `Stream.playAudio` (lines 247-278) at server time `now`. -/
def playAudio (now : Nat) (url : Str) (text : Str) (duration : Nat)
    (s : Stream) : Stream :=
  let look := parseLook text
  let chunks := splitIntoSubtitleChunks (stripTags text)
  let b := s.broadcast
  let b' := { b with
    audioUrl := some url
    audioStartTime := now
    audioDuration := duration
    isPlaying := true
    expression := parseExpression text
    gesture := parseGesture text
    lookX := look.1
    lookY := look.2
    subtitleText := if chunks ≠ [] then chunks.getD 0 [] else b.subtitleText
    subtitleVisible := if chunks ≠ [] then true else b.subtitleVisible
    currentMessage := some
      { username := s.agentName
        text := stripTags text
        kind := "agent".toList
        timestamp := now } }
  { s with broadcast := b', subtitleChunks := chunks }

/-- The `stream:join` viewer handler (lines 629-675) at server time `now`:
adds the viewer, updates the stats and synchronously emits the join-time
snapshot `stream.broadcast.toJSON()` — without running a tick. -/
def joinStream (now : Nat) (s : Stream) : Stream × Snapshot :=
  let s' := { s with
    viewers := s.viewers + 1
    totalViewers := s.totalViewers + 1
    peakViewers := max s.peakViewers (s.viewers + 1) }
  (s', s'.broadcast.toJSON now)

/-- Events a live stream can undergo between an utterance and a late join:
broadcast ticks and viewer joins (each carrying its server time). -/
inductive Ev where
  | tick (t : Nat)
  | join (t : Nat)
deriving DecidableEq

/-- The server time at which an event happens. -/
def Ev.time : Ev → Nat
  | .tick t => t
  | .join t => t

/-- State transition of one event. -/
def stepEv (lip : Int → Nat → ℚ) (s : Stream) : Ev → Stream
  | .tick t => (broadcastTick lip t s).1
  | .join t => (joinStream t s).1

/-- Run a sequence of events. -/
def runEvs (lip : Int → Nat → ℚ) (s : Stream) (evs : List Ev) : Stream :=
  evs.foldl (stepEv lip) s

/-! ### The producer chat handler (`stream:chat`, lines 480-594) -/

/-- `slice(-100)` trimming applied after the push (lines 497-499). -/
def trim100 (h : List ChatMsg) : List ChatMsg :=
  if 100 < h.length then h.drop (h.length - 100) else h

/-- The agent chat message stored in history (lines 486-495). -/
def mkAgentMsg (now : Nat) (text : Str) (s : Stream) : ChatMsg where
  username := s.agentName
  text := stripTags text
  kind := "agent".toList
  timestamp := now

/-- The `stream:chat` producer handler (lines 480-531).  `tts` is the
result of the external `generateSpeech` collaborator: `some path` on
success, `none` when it throws (the `catch` branch leaves `audioPath`
null).  Media-tag side effects (GIF/YouTube broadcasts) touch no session
state and are omitted. -/
def streamChat (tts : Option Str) (now : Nat) (text : Str) (s : Stream) :
    Stream :=
  let s1 := { s with
    messageCount := s.messageCount + 1
    chatHistory := trim100 (s.chatHistory ++ [mkAgentMsg now text s]) }
  let audioPath : Option Str := if trimWs text ≠ [] then tts else none
  match audioPath with
  | some p =>
    let clean := stripTags text
    let dur := max 3000 (jsWords clean * 500 + 1000)
    playAudio now p text dur s1
  | none => s1

/-- The `chat:send` viewer handler (lines 693-724): pushes the message with
NO `slice(-100)` trimming.  Sender-role classification only affects the
message's display fields, so the message is passed in whole. -/
def viewerChat (msg : ChatMsg) (s : Stream) : Stream :=
  { s with chatHistory := s.chatHistory ++ [msg] }

/-! ### The transport gateway (`stream:start`, lines 441-477) -/

/-- Gateway state: `verified` models the `verifiedStreamers` map
(agent id → stream-key secret), `active` the `activeStreams` registry. -/
structure Gateway where
  verified : List (Str × Str)
  active : List (Str × Stream)
deriving DecidableEq

/-- `verifiedStreamers.get(agentId)?.secret`. -/
def getSecret (g : Gateway) (agentId : Str) : Option Str :=
  (g.verified.find? (fun p => p.1 = agentId)).map Prod.snd

/-- Result delivered to the producer socket. -/
inductive StartRes where
  | started (streamId : Str)
  | error (msg : Str)
deriving DecidableEq

/-- The `stream:start` handler (lines 441-477).  `freshSecret` models the
`crypto.randomBytes` auto-generated secret; `secret` is the credential in
the request (`none` models a missing/empty secret, which is falsy in JS).
On auth failure the handler emits `stream:error` and returns without
touching the registry. -/
def streamStart (freshSecret : Str) (now : Nat) (agentId : Str)
    (secret : Option Str) (agentName : Str) (g : Gateway) :
    Gateway × StartRes :=
  let g1 :=
    if (getSecret g agentId).isNone then
      { g with verified := (agentId, secret.getD freshSecret) :: g.verified }
    else g
  let stored := (getSecret g1 agentId).getD []
  let supplied := secret.getD stored
  if supplied = stored then
    let st :=
      match g1.active.find? (fun p => p.1 = agentId) with
      | some p => { p.2 with live := true }
      | none => { Stream.init agentId agentName with
                    live := true, startedAt := some now }
    ({ g1 with active :=
        (agentId, st) :: g1.active.filter (fun p => p.1 ≠ agentId) },
     .started agentId)
  else (g1, .error ("Auth failed".toList))

/-! ### Preservation lemmas for the tick/join machinery -/

theorem broadcastTick_fst_core (lip : Int → Nat → ℚ) (now : Nat) (s : Stream)
    (hp : s.broadcast.isPlaying = true)
    (ht : (now : Int) - (s.broadcast.audioStartTime : Int) <
      (s.broadcast.audioDuration : Int)) :
    ((broadcastTick lip now s).1.broadcast.isPlaying = true ∧
     (broadcastTick lip now s).1.broadcast.audioStartTime =
       s.broadcast.audioStartTime ∧
     (broadcastTick lip now s).1.broadcast.audioDuration =
       s.broadcast.audioDuration ∧
     (broadcastTick lip now s).1.broadcast.audioUrl = s.broadcast.audioUrl) := by
  by_cases hv : s.viewers = 0
  · simp [broadcastTick, hv, hp]
  · simp [broadcastTick, hv, hp, not_le.2 ht]

theorem joinStream_broadcast (now : Nat) (s : Stream) :
    (joinStream now s).1.broadcast = s.broadcast := rfl

theorem stepEv_core (lip : Int → Nat → ℚ) (s : Stream) (e : Ev)
    (hp : s.broadcast.isPlaying = true)
    (ht : (e.time : Int) - (s.broadcast.audioStartTime : Int) <
      (s.broadcast.audioDuration : Int)) :
    ((stepEv lip s e).broadcast.isPlaying = true ∧
     (stepEv lip s e).broadcast.audioStartTime = s.broadcast.audioStartTime ∧
     (stepEv lip s e).broadcast.audioDuration = s.broadcast.audioDuration ∧
     (stepEv lip s e).broadcast.audioUrl = s.broadcast.audioUrl) := by
  cases e with
  | tick t => exact broadcastTick_fst_core lip t s hp ht
  | join t => simp [stepEv, joinStream_broadcast, hp]

theorem runEvs_core (lip : Int → Nat → ℚ) (evs : List Ev) (s : Stream)
    (hp : s.broadcast.isPlaying = true)
    (hevs : ∀ e ∈ evs, ((e.time : Int) - (s.broadcast.audioStartTime : Int) <
      (s.broadcast.audioDuration : Int))) :
    ((runEvs lip s evs).broadcast.isPlaying = true ∧
     (runEvs lip s evs).broadcast.audioStartTime = s.broadcast.audioStartTime ∧
     (runEvs lip s evs).broadcast.audioDuration = s.broadcast.audioDuration ∧
     (runEvs lip s evs).broadcast.audioUrl = s.broadcast.audioUrl) := by
  induction evs generalizing s with
  | nil => exact ⟨hp, rfl, rfl, rfl⟩
  | cons e evs ih =>
    have h1 := stepEv_core lip s e hp (hevs e (by simp))
    have h2 := ih (stepEv lip s e) h1.1 (by
      intro f hf
      rw [h1.2.1, h1.2.2.1]
      exact hevs f (by simp [hf]))
    refine ⟨h2.1, ?_, ?_, ?_⟩
    · rw [runEvs] at h2 ⊢
      simp only [List.foldl_cons]
      rw [h2.2.1, h1.2.1]
    · rw [runEvs] at h2 ⊢
      simp only [List.foldl_cons]
      rw [h2.2.2.1, h1.2.2.1]
    · rw [runEvs] at h2 ⊢
      simp only [List.foldl_cons]
      rw [h2.2.2.2, h1.2.2.2]

theorem stepEv_rest (lip : Int → Nat → ℚ) (s : Stream) (e : Ev)
    (hp : s.broadcast.isPlaying = false) :
    (stepEv lip s e).broadcast = s.broadcast := by
  cases e with
  | tick t =>
    by_cases hv : s.viewers = 0
    · simp [stepEv, broadcastTick, hv]
    · simp [stepEv, broadcastTick, hv, hp]
  | join t => rfl

theorem runEvs_rest (lip : Int → Nat → ℚ) (evs : List Ev) (s : Stream)
    (hp : s.broadcast.isPlaying = false) :
    (runEvs lip s evs).broadcast = s.broadcast := by
  induction evs generalizing s with
  | nil => rfl
  | cons e evs ih =>
    rw [runEvs, List.foldl_cons, ← runEvs, ih]
    · exact stepEv_rest lip s e hp
    · rw [stepEv_rest lip s e hp]
      exact hp

/-- Claim C1: a viewer joining at server time `T` while an utterance that
started at `T0` with duration `D` is still playing (`T0 ≤ T < T0 + D`,
with only ticks and other joins in between, all before expiry) receives a
join-time snapshot with `audio.isPlaying = true` and `audio.position =
T - T0`, which lies in `[0, D)`; a viewer joining 1000 ms later (still
before expiry) computes a position exactly 1000 larger. -/
theorem late_join_offset (lip : Int → Nat → ℚ) (s0 : Stream) (u text : Str)
    (D T0 : Nat) (evs : List Ev) (T : Nat)
    (hevs : ∀ e ∈ evs, e.time < T0 + D)
    (hT0 : T0 ≤ T) (hTD : T < T0 + D) :
    ((joinStream T (runEvs lip (playAudio T0 u text D s0) evs)).2.isPlaying
        = true ∧
     (joinStream T (runEvs lip (playAudio T0 u text D s0) evs)).2.position
        = (T : Int) - (T0 : Int) ∧
     0 ≤ (joinStream T (runEvs lip (playAudio T0 u text D s0) evs)).2.position ∧
     (joinStream T (runEvs lip (playAudio T0 u text D s0) evs)).2.position
        < (D : Int)) ∧
    (T + 1000 < T0 + D →
      (joinStream (T + 1000)
          (joinStream T (runEvs lip (playAudio T0 u text D s0) evs)).1).2.position
        = (joinStream T (runEvs lip (playAudio T0 u text D s0) evs)).2.position
            + 1000) := by
  have hstart : (playAudio T0 u text D s0).broadcast.audioStartTime = T0 := rfl
  have hdur : (playAudio T0 u text D s0).broadcast.audioDuration = D := rfl
  have hplay : (playAudio T0 u text D s0).broadcast.isPlaying = true := rfl
  have hcore := runEvs_core lip evs (playAudio T0 u text D s0) hplay (by
    intro e he
    rw [hstart, hdur]
    have := hevs e he
    omega)
  rw [hstart] at hcore
  rw [hdur] at hcore
  constructor
  · refine ⟨?_, ?_, ?_, ?_⟩
    · simp [joinStream, BroadcastState.toJSON, hcore.1]
    · simp [joinStream, BroadcastState.toJSON, hcore.1, hcore.2.1]
    · simp only [joinStream, BroadcastState.toJSON, hcore.1, if_true, hcore.2.1]
      omega
    · simp only [joinStream, BroadcastState.toJSON, hcore.1, if_true, hcore.2.1]
      omega
  · intro _
    simp [joinStream, BroadcastState.toJSON, hcore.1, hcore.2.1]
    omega

/-- Witness for C1 at a concrete trace: utterance at `T0 = 100` with
`D = 5000`, a tick, a join and another tick before expiry, and a late join
at `T = 1100` computing position `1000`. -/
theorem late_join_offset_witness :
    ((joinStream 1100 (runEvs (fun _ _ => 0)
        (playAudio 100 ("a.mp3".toList) ("hi there".toList) 5000
          (Stream.init ("mao".toList) ("Mao".toList)))
        [Ev.tick 150, Ev.join 200, Ev.tick 1050])).2.isPlaying = true ∧
     (joinStream 1100 (runEvs (fun _ _ => 0)
        (playAudio 100 ("a.mp3".toList) ("hi there".toList) 5000
          (Stream.init ("mao".toList) ("Mao".toList)))
        [Ev.tick 150, Ev.join 200, Ev.tick 1050])).2.position = (1100 : Int) - (100 : Int) ∧
     0 ≤ (joinStream 1100 (runEvs (fun _ _ => 0)
        (playAudio 100 ("a.mp3".toList) ("hi there".toList) 5000
          (Stream.init ("mao".toList) ("Mao".toList)))
        [Ev.tick 150, Ev.join 200, Ev.tick 1050])).2.position ∧
     (joinStream 1100 (runEvs (fun _ _ => 0)
        (playAudio 100 ("a.mp3".toList) ("hi there".toList) 5000
          (Stream.init ("mao".toList) ("Mao".toList)))
        [Ev.tick 150, Ev.join 200, Ev.tick 1050])).2.position < (5000 : Int)) ∧
    (1100 + 1000 < 100 + 5000 →
      (joinStream (1100 + 1000)
          (joinStream 1100 (runEvs (fun _ _ => 0)
            (playAudio 100 ("a.mp3".toList) ("hi there".toList) 5000
              (Stream.init ("mao".toList) ("Mao".toList)))
            [Ev.tick 150, Ev.join 200, Ev.tick 1050])).1).2.position
        = (joinStream 1100 (runEvs (fun _ _ => 0)
            (playAudio 100 ("a.mp3".toList) ("hi there".toList) 5000
              (Stream.init ("mao".toList) ("Mao".toList)))
            [Ev.tick 150, Ev.join 200, Ev.tick 1050])).2.position + 1000) :=
  late_join_offset (fun _ _ => 0) (Stream.init ("mao".toList) ("Mao".toList))
    ("a.mp3".toList) ("hi there".toList) 5000 100
    [Ev.tick 150, Ev.join 200, Ev.tick 1050] 1100
    (by decide) (by omega) (by omega)

/-! ### C2: the playing-implies-not-expired invariant -/

theorem tick_clears_of_expired (lip : Int → Nat → ℚ) (now : Nat) (s : Stream)
    (hv : s.viewers ≠ 0) (hp : s.broadcast.isPlaying = true)
    (he : (s.broadcast.audioDuration : Int) ≤
      (now : Int) - (s.broadcast.audioStartTime : Int)) :
    (broadcastTick lip now s).1.broadcast =
      { s.broadcast with
        isPlaying := false
        mouthOpen := 0
        subtitleVisible := false
        audioUrl := none
        gesture := none } := by
  simp [broadcastTick, hv, hp, he]

/-- A stream with zero viewers that began an utterance at time 0 with
duration 1000, after a (skipped, zero-viewer) tick at time 2000. -/
def staleStream : Stream :=
  (broadcastTick (fun _ _ => 0) 2000
    (playAudio 0 ("a.mp3".toList) ("hello".toList) 1000
      (Stream.init ("mao".toList) ("Mao".toList)))).1

/-- The join-time snapshot a viewer joining `staleStream` at time 2000
receives. -/
def staleSnap : Snapshot := (joinStream 2000 staleStream).2

/-- Counterexample to claim C2 as stated: with zero subscribed viewers
ticks do nothing (line 199), so an utterance that began at time 0 with
duration 1000 is still recorded as playing at time 2000; the join-time
snapshot — an observable broadcast state built by `toJSON` — then shows
`isPlaying = true` with `position ≥ duration` (and its `audioUrl` still
present). -/
theorem playing_expired_snapshot_cex :
    staleSnap.isPlaying = true ∧
    ¬ (staleSnap.position < (staleSnap.audioDuration : Int)) ∧
    staleSnap.audioUrl ≠ none := by
  decide

/-- Claim C2, amended: the invariant holds for every tick-emitted state.
(a) a tick never emits a snapshot with `isPlaying = true` and elapsed ≥
duration, and under the `isPlaying → audioUrl` present state invariant the
emitted snapshot also carries a present `audioUrl`; (b) a tick that finds
the utterance expired clears `isPlaying`, `mouthOpen`, `subtitleVisible`,
`audioUrl` and `gesture` atomically in that same tick; (c) the
`isPlaying → audioUrl present` invariant is preserved by ticks, and (d) is
established by `playAudio`.  (The claim's "every observable state" part
fails for join-time snapshots while ticks are skipped, see the
counterexample.) -/
theorem tick_invariant_safety (lip : Int → Nat → ℚ) (now : Nat) (s : Stream) :
    (∀ snap, (broadcastTick lip now s).2 = some snap →
      snap.isPlaying = true →
        ((now : Int) - (snap.audioStartTime : Int) < (snap.audioDuration : Int) ∧
         ((s.broadcast.isPlaying = true → s.broadcast.audioUrl ≠ none) →
            snap.audioUrl ≠ none))) ∧
    (s.viewers ≠ 0 → s.broadcast.isPlaying = true →
      (s.broadcast.audioDuration : Int) ≤
          (now : Int) - (s.broadcast.audioStartTime : Int) →
      ((broadcastTick lip now s).1.broadcast.isPlaying = false ∧
       (broadcastTick lip now s).1.broadcast.mouthOpen = 0 ∧
       (broadcastTick lip now s).1.broadcast.subtitleVisible = false ∧
       (broadcastTick lip now s).1.broadcast.audioUrl = none ∧
       (broadcastTick lip now s).1.broadcast.gesture = none)) ∧
    ((s.broadcast.isPlaying = true → s.broadcast.audioUrl ≠ none) →
      (broadcastTick lip now s).1.broadcast.isPlaying = true →
        (broadcastTick lip now s).1.broadcast.audioUrl ≠ none) ∧
    (∀ u text D, (playAudio now u text D s).broadcast.isPlaying = true ∧
      (playAudio now u text D s).broadcast.audioUrl ≠ none) := by
  refine ⟨?_, ?_, ?_, ?_⟩
  · intro snap hsnap hplay
    by_cases hv : s.viewers = 0
    · simp [broadcastTick, hv] at hsnap
    · by_cases hp : s.broadcast.isPlaying = true
      · by_cases he : (s.broadcast.audioDuration : Int) ≤
            (now : Int) - (s.broadcast.audioStartTime : Int)
        · simp [broadcastTick, hv, hp, he, BroadcastState.toJSON] at hsnap
          rw [← hsnap] at hplay
          simp at hplay
        · simp only [broadcastTick, hv, if_false, hp, if_true, he,
            BroadcastState.toJSON, Option.some.injEq, ite_false] at hsnap
          constructor
          · rw [← hsnap]
            simpa using not_le.1 he
          · intro hinv
            rw [← hsnap]
            simpa using hinv hp
      · simp only [broadcastTick, hv, if_false, Bool.not_eq_true] at hsnap
        rw [Bool.not_eq_true] at hp
        rw [hp] at hsnap
        simp only [Bool.false_eq_true, if_false, Option.some.injEq] at hsnap
        rw [← hsnap] at hplay
        simp [BroadcastState.toJSON, hp] at hplay
  · intro hv hp he
    rw [tick_clears_of_expired lip now s hv hp he]
    exact ⟨rfl, rfl, rfl, rfl, rfl⟩
  · intro hinv hplay
    by_cases hv : s.viewers = 0
    · simp only [broadcastTick, hv, if_true] at hplay ⊢
      exact hinv hplay
    · by_cases hp : s.broadcast.isPlaying = true
      · by_cases he : (s.broadcast.audioDuration : Int) ≤
            (now : Int) - (s.broadcast.audioStartTime : Int)
        · rw [tick_clears_of_expired lip now s hv hp he] at hplay
          simp at hplay
        · simp only [broadcastTick, hv, if_false, hp, if_true, he, ite_false]
          simpa using hinv hp
      · rw [Bool.not_eq_true] at hp
        simp only [broadcastTick, hv, if_false, hp, Bool.false_eq_true,
          if_false] at hplay
  · intro u text D
    exact ⟨rfl, by simp [playAudio]⟩

/-- A playing stream with one subscribed viewer, used to exercise the
expiry-clearing tick. -/
def watchedStream : Stream :=
  (joinStream 10 (playAudio 0 ("a.mp3".toList) ("hello".toList) 1000
    (Stream.init ("mao".toList) ("Mao".toList)))).1

/-- Witness for C2 (amended), exercising the expiry-clearing conjunct on a
concrete playing stream with one viewer at time 2000 ≥ 0 + 1000. -/
theorem tick_invariant_safety_witness :
    ((broadcastTick (fun _ _ => 0) 2000 watchedStream).1.broadcast.isPlaying = false ∧
     (broadcastTick (fun _ _ => 0) 2000 watchedStream).1.broadcast.mouthOpen = 0 ∧
     (broadcastTick (fun _ _ => 0) 2000 watchedStream).1.broadcast.subtitleVisible = false ∧
     (broadcastTick (fun _ _ => 0) 2000 watchedStream).1.broadcast.audioUrl = none ∧
     (broadcastTick (fun _ _ => 0) 2000 watchedStream).1.broadcast.gesture = none) :=
  (tick_invariant_safety (fun _ _ => 0) 2000 watchedStream).2.1
    (by decide) (by decide) (by decide)

/-! ### C3: skipped ticks and joins after the utterance has ended -/

/-- A never-watched stream whose utterance (duration 3000, started at 0)
expired long ago; the tick at 4000 was skipped for want of viewers. -/
def abandonedStream : Stream :=
  (broadcastTick (fun _ _ => 0) 4000
    (playAudio 0 ("b.mp3".toList) ("[happy] hello friends".toList) 3000
      (Stream.init ("mao".toList) ("Mao".toList)))).1

/-- The join-time snapshot received at time 5000 on `abandonedStream`. -/
def abandonedSnap : Snapshot := (joinStream 5000 abandonedStream).2

/-- Counterexample to claim C3 as stated: the utterance began at 0 with
duration 3000 and no viewer ever subscribed, so the tick at 4000 was
skipped; a viewer joining at 5000 does NOT receive the rest state — the
join snapshot still reports the stale audio as playing, with a visible
subtitle and `position ≥ duration`, so the viewer retroactively plays the
stale audio. -/
theorem stale_join_after_end_cex :
    abandonedSnap.isPlaying = true ∧
    abandonedSnap.audioUrl ≠ none ∧
    abandonedSnap.subtitleVisible = true ∧
    (abandonedSnap.audioDuration : Int) ≤ abandonedSnap.position := by
  decide

/-- Claim C3, amended: a viewer joining after the utterance ended receives
the rest state (not playing, no audio, no subtitle, position 0) provided at
least one tick actually executed — i.e. ran with a subscribed viewer — at
or after expiry before the join; further ticks and joins in between do not
disturb the rest state.  Without such a tick (zero viewers), the join
snapshot still shows the stale utterance as playing (see the
counterexample): a skipped tick is NOT invisible to client state. -/
theorem join_after_end_rest (lip : Int → Nat → ℚ) (s0 : Stream)
    (u text : Str) (D T0 t1 T : Nat) (evs : List Ev)
    (hv : s0.viewers ≠ 0)
    (ht1 : T0 + D ≤ t1) :
    ((joinStream T (runEvs lip
        ((broadcastTick lip t1 (playAudio T0 u text D s0)).1) evs)).2.isPlaying
      = false ∧
     (joinStream T (runEvs lip
        ((broadcastTick lip t1 (playAudio T0 u text D s0)).1) evs)).2.audioUrl
      = none ∧
     (joinStream T (runEvs lip
        ((broadcastTick lip t1 (playAudio T0 u text D s0)).1) evs)).2.subtitleVisible
      = false ∧
     (joinStream T (runEvs lip
        ((broadcastTick lip t1 (playAudio T0 u text D s0)).1) evs)).2.position
      = 0) := by
  have hv' : (playAudio T0 u text D s0).viewers ≠ 0 := hv
  have hp : (playAudio T0 u text D s0).broadcast.isPlaying = true := rfl
  have he : ((playAudio T0 u text D s0).broadcast.audioDuration : Int) ≤
      (t1 : Int) - ((playAudio T0 u text D s0).broadcast.audioStartTime : Int) := by
    have h1 : (playAudio T0 u text D s0).broadcast.audioStartTime = T0 := rfl
    have h2 : (playAudio T0 u text D s0).broadcast.audioDuration = D := rfl
    rw [h1, h2]
    omega
  have hclear := tick_clears_of_expired lip t1 (playAudio T0 u text D s0) hv' hp he
  have hrest : ((broadcastTick lip t1 (playAudio T0 u text D s0)).1).broadcast.isPlaying
      = false := by rw [hclear]
  have hrun := runEvs_rest lip evs _ hrest
  rw [joinStream]
  simp only [BroadcastState.toJSON, hrun, hclear]
  exact ⟨trivial, trivial, trivial, by simp⟩

/-- A stream with one subscribed viewer, prior to its utterance. -/
def earlyViewerStream : Stream :=
  (joinStream 5 (Stream.init ("mao".toList) ("Mao".toList))).1

/-- Witness for C3 (amended) at a concrete trace: one viewer subscribed, a
tick executed at 4000 ≥ 0 + 3000, a later tick, and a join at 9000 seeing
the rest state. -/
theorem join_after_end_rest_witness :
    ((joinStream 9000 (runEvs (fun _ _ => 0)
        ((broadcastTick (fun _ _ => 0) 4000 (playAudio 0 ("b.mp3".toList)
          ("[happy] hello friends".toList) 3000 earlyViewerStream)).1)
        [Ev.tick 4500])).2.isPlaying = false ∧
     (joinStream 9000 (runEvs (fun _ _ => 0)
        ((broadcastTick (fun _ _ => 0) 4000 (playAudio 0 ("b.mp3".toList)
          ("[happy] hello friends".toList) 3000 earlyViewerStream)).1)
        [Ev.tick 4500])).2.audioUrl = none ∧
     (joinStream 9000 (runEvs (fun _ _ => 0)
        ((broadcastTick (fun _ _ => 0) 4000 (playAudio 0 ("b.mp3".toList)
          ("[happy] hello friends".toList) 3000 earlyViewerStream)).1)
        [Ev.tick 4500])).2.subtitleVisible = false ∧
     (joinStream 9000 (runEvs (fun _ _ => 0)
        ((broadcastTick (fun _ _ => 0) 4000 (playAudio 0 ("b.mp3".toList)
          ("[happy] hello friends".toList) 3000 earlyViewerStream)).1)
        [Ev.tick 4500])).2.position = 0) :=
  join_after_end_rest (fun _ _ => 0) earlyViewerStream
    ("b.mp3".toList) ("[happy] hello friends".toList) 3000 0 4000 9000
    [Ev.tick 4500] (by decide) (by omega)

/-! ### C4: utterances whose speech synthesis fails -/

/-- The tagged utterance used to exhibit the TTS-failure behaviour. -/
def taggedText : Str := "[happy] [wave] hi chat".toList

/-- Counterexample to claim C4 as stated: when `generateSpeech` throws,
`audioPath` stays null and the `if (audioPath)` guard (line 520) skips
`playAudio` entirely, so the parsed expression (`happy`), gesture (`wave`)
and first subtitle chunk are NOT applied: the broadcast state is exactly
the state before the utterance. -/
theorem tts_failure_no_broadcast_cex :
    ((streamChat none 50 taggedText
        (Stream.init ("mao".toList) ("Mao".toList))).broadcast =
      BroadcastState.init ∧
     parseExpression taggedText = "happy".toList ∧
     parseGesture taggedText = some ("wave".toList) ∧
     splitIntoSubtitleChunks (stripTags taggedText) ≠ []) := by
  decide

/-- Claim C4, amended: on TTS failure the utterance leaves the broadcast
state completely untouched — no expression, gesture or subtitle is applied
and nothing new becomes visible to viewers via the tick snapshots; the
chat message itself is still recorded (and fanned out) with no error
surfaced to viewers.  Expression/gesture/subtitle apply exactly when
synthesis succeeds (for nonempty text), via `playAudio`. -/
theorem tts_failure_degraded (now : Nat) (text : Str) (s : Stream) :
    ((streamChat none now text s).broadcast = s.broadcast ∧
     (streamChat none now text s).chatHistory =
       trim100 (s.chatHistory ++ [mkAgentMsg now text s]) ∧
     (streamChat none now text s).subtitleChunks = s.subtitleChunks) ∧
    (∀ p, trimWs text ≠ [] →
      ((streamChat (some p) now text s).broadcast.expression =
          parseExpression text ∧
       (streamChat (some p) now text s).broadcast.gesture =
          parseGesture text ∧
       (streamChat (some p) now text s).broadcast.isPlaying = true ∧
       (streamChat (some p) now text s).broadcast.audioUrl = some p)) := by
  constructor
  · by_cases h : trimWs text = []
    · simp [streamChat, h]
    · simp [streamChat, h]
  · intro p h
    simp [streamChat, h, playAudio]

/-- Witness for C4 (amended): the success branch applies the parsed
expression and gesture for the concrete tagged utterance. -/
theorem tts_failure_degraded_witness :
    (streamChat (some ("x.mp3".toList)) 50 taggedText
        (Stream.init ("mao".toList) ("Mao".toList))).broadcast.expression =
      parseExpression taggedText ∧
    (streamChat (some ("x.mp3".toList)) 50 taggedText
        (Stream.init ("mao".toList) ("Mao".toList))).broadcast.gesture =
      parseGesture taggedText ∧
    (streamChat (some ("x.mp3".toList)) 50 taggedText
        (Stream.init ("mao".toList) ("Mao".toList))).broadcast.isPlaying = true ∧
    (streamChat (some ("x.mp3".toList)) 50 taggedText
        (Stream.init ("mao".toList) ("Mao".toList))).broadcast.audioUrl =
      some ("x.mp3".toList) :=
  (tts_failure_degraded 50 taggedText
      (Stream.init ("mao".toList) ("Mao".toList))).2 ("x.mp3".toList) (by decide)

/-! ### C5: producer authentication on `stream:start` -/

/-- A gateway with one registered producer (`mao`, secret `topsecret`). -/
def oneAgentGateway : Gateway where
  verified := [("mao".toList, "topsecret".toList)]
  active := []

/-- Counterexample to claim C5 as stated: a `stream:start` request for the
registered agent `mao` that supplies NO credential still succeeds — the
handler falls back to the stored secret itself
(`secret || storedSecret`, line 452), so the session goes live without the
caller ever knowing the stream key; credentials are not actually required
to pass validation. -/
theorem start_without_credentials_cex :
    (streamStart ("freshkey".toList) 0 ("mao".toList) none ("Mao".toList)
        oneAgentGateway).2 = StartRes.started ("mao".toList) := by
  decide

/-- Claim C5, amended: `stream:start` fails only when the agent id is
already registered AND the request supplies a (nonempty) secret different
from the stored one; in that case no gateway state is mutated.  A request
with no secret falls back to the stored secret and always succeeds; an
unregistered agent id is auto-registered (with the supplied or a fresh
secret) and always succeeds.  Only the wrong-explicit-secret case is
rejected. -/
theorem start_auth_behaviour (fresh : Str) (now : Nat) (agentId : Str)
    (agentName : Str) (g : Gateway) :
    (∀ x stored, getSecret g agentId = some stored → x ≠ stored →
      (streamStart fresh now agentId (some x) agentName g =
        (g, StartRes.error ("Auth failed".toList)))) ∧
    (∀ stored, getSecret g agentId = some stored →
      ((streamStart fresh now agentId none agentName g).2 =
          StartRes.started agentId ∧
       (streamStart fresh now agentId (some stored) agentName g).2 =
          StartRes.started agentId)) ∧
    (getSecret g agentId = none → ∀ secret,
      ((streamStart fresh now agentId secret agentName g).2 =
          StartRes.started agentId ∧
       getSecret (streamStart fresh now agentId secret agentName g).1 agentId =
          some (secret.getD fresh))) := by
  refine ⟨?_, ?_, ?_⟩
  · intro x stored hst hx
    have hreg : (getSecret g agentId).isNone = false := by
      rw [hst]; rfl
    simp [streamStart, hreg, hst, hx]
  · intro stored hst
    have hreg : (getSecret g agentId).isNone = false := by
      rw [hst]; rfl
    constructor
    · simp [streamStart, hreg, hst]
    · simp [streamStart, hreg, hst]
  · intro hst secret
    have hfind : ∀ v : Str,
        List.find? (fun p => decide (p.1 = agentId)) ((agentId, v) :: g.verified)
          = some (agentId, v) :=
      fun v => List.find?_cons_of_pos _ (by simp)
    have hfind0 : List.find? (fun p => decide (p.1 = agentId)) g.verified = none := by
      unfold getSecret at hst
      cases h : List.find? (fun p => decide (p.1 = agentId)) g.verified with
      | none => rfl
      | some v => rw [h] at hst; simp at hst
    have hver : (streamStart fresh now agentId secret agentName g).1.verified =
        (agentId, secret.getD fresh) :: g.verified := by
      cases secret with
      | none => simp [streamStart, getSecret, hfind0, hfind]
      | some x => simp [streamStart, getSecret, hfind0, hfind]
    constructor
    · cases secret with
      | none => simp [streamStart, getSecret, hfind0, hfind]
      | some x => simp [streamStart, getSecret, hfind0, hfind]
    · rw [getSecret, hver, hfind]
      rfl

/-- Witness for C5 (amended): rejecting a wrong explicit secret for the
registered agent mutates nothing, while the no-credential fallback and the
auto-registration path both succeed. -/
theorem start_auth_behaviour_witness :
    (streamStart ("freshkey".toList) 0 ("mao".toList)
        (some ("WRONG".toList)) ("Mao".toList) oneAgentGateway =
      (oneAgentGateway, StartRes.error ("Auth failed".toList))) ∧
    (streamStart ("freshkey".toList) 0 ("mao".toList)
        (some ("topsecret".toList)) ("Mao".toList) oneAgentGateway).2 =
      StartRes.started ("mao".toList) ∧
    (streamStart ("freshkey".toList) 0 ("zig".toList) none ("Zig".toList)
        oneAgentGateway).2 = StartRes.started ("zig".toList) :=
  ⟨(start_auth_behaviour ("freshkey".toList) 0 ("mao".toList) ("Mao".toList)
      oneAgentGateway).1 ("WRONG".toList) ("topsecret".toList)
      (by decide) (by decide),
   ((start_auth_behaviour ("freshkey".toList) 0 ("mao".toList) ("Mao".toList)
      oneAgentGateway).2.1 ("topsecret".toList) (by decide)).2,
   ((start_auth_behaviour ("freshkey".toList) 0 ("zig".toList) ("Zig".toList)
      oneAgentGateway).2.2 (by decide) none).1⟩

/-! ### C6: gesture priority tiers -/

theorem findFirstTag_spec (tags : List Str) (s : Str) (i : Nat) (t : Str)
    (ht : t ∈ tags) (hm : tagMatchAt s i t = true) :
    ∃ j u, u ∈ tags ∧ tagMatchAt s j u = true ∧
      (∀ k, k < j → ∀ v ∈ tags, tagMatchAt s k v = false) ∧
      findFirstTag tags s = some u := by
  cases hf : findFirstTag tags s with
  | none => exact absurd hf (findFirstTag_isSome_of_match tags s i t ht hm)
  | some u =>
    obtain ⟨j, h1, h2⟩ := findFirstTag_eq_some tags s u hf
    obtain ⟨hu1, hu2⟩ := matchAlt_eq_some tags _ u h1
    refine ⟨j, u, hu1, hu2, ?_, rfl⟩
    intro k hk v hv
    exact (matchAlt_eq_none_iff tags _).1 (h2 k hk) v hv

theorem findFirstTag_none_of_no_match (tags : List Str) (s : Str)
    (h : ∀ i t, t ∈ tags → tagMatchAt s i t = false) :
    findFirstTag tags s = none := by
  rw [findFirstTag_eq_none_iff]
  intro i
  rw [matchAlt_eq_none_iff]
  intro t ht
  exact h i t ht

/-- Claim C6: `parseGesture` resolves in three tiers.  If any tier-1
special tag matches anywhere, the result is the tier-1 tag at the earliest
matching position (no tier-1 tag matches earlier), regardless of tier-2/3
content; with no tier-1 match, the first tier-2 body-motion tag wins;
with neither, the first tier-3 arm tag; with no tag at all, no gesture. -/
theorem gesture_tier_priority (s : Str) :
    (∀ i t, t ∈ specialTags → tagMatchAt s i t = true →
      ∃ j u, u ∈ specialTags ∧ tagMatchAt s j u = true ∧
        (∀ k, k < j → ∀ v ∈ specialTags, tagMatchAt s k v = false) ∧
        parseGesture s = some u) ∧
    ((∀ i t, t ∈ specialTags → tagMatchAt s i t = false) →
      ∀ i t, t ∈ motionTags → tagMatchAt s i t = true →
      ∃ j u, u ∈ motionTags ∧ tagMatchAt s j u = true ∧
        (∀ k, k < j → ∀ v ∈ motionTags, tagMatchAt s k v = false) ∧
        parseGesture s = some u) ∧
    ((∀ i t, t ∈ specialTags ∨ t ∈ motionTags → tagMatchAt s i t = false) →
      ∀ i t, t ∈ armTags → tagMatchAt s i t = true →
      ∃ j u, u ∈ armTags ∧ tagMatchAt s j u = true ∧
        (∀ k, k < j → ∀ v ∈ armTags, tagMatchAt s k v = false) ∧
        parseGesture s = some u) ∧
    ((∀ i t, t ∈ specialTags ∨ t ∈ motionTags ∨ t ∈ armTags →
        tagMatchAt s i t = false) →
      parseGesture s = none) := by
  refine ⟨?_, ?_, ?_, ?_⟩
  · intro i t ht hm
    obtain ⟨j, u, h1, h2, h3, h4⟩ := findFirstTag_spec specialTags s i t ht hm
    exact ⟨j, u, h1, h2, h3, by rw [parseGesture, h4]⟩
  · intro hno i t ht hm
    have hs : findFirstTag specialTags s = none :=
      findFirstTag_none_of_no_match _ _ (fun i t h => hno i t h)
    obtain ⟨j, u, h1, h2, h3, h4⟩ := findFirstTag_spec motionTags s i t ht hm
    exact ⟨j, u, h1, h2, h3, by rw [parseGesture, hs, h4]⟩
  · intro hno i t ht hm
    have hs : findFirstTag specialTags s = none :=
      findFirstTag_none_of_no_match _ _ (fun i t h => hno i t (Or.inl h))
    have hmo : findFirstTag motionTags s = none :=
      findFirstTag_none_of_no_match _ _ (fun i t h => hno i t (Or.inr h))
    obtain ⟨j, u, h1, h2, h3, h4⟩ := findFirstTag_spec armTags s i t ht hm
    exact ⟨j, u, h1, h2, h3, by rw [parseGesture, hs, hmo, h4]⟩
  · intro hno
    have hs : findFirstTag specialTags s = none :=
      findFirstTag_none_of_no_match _ _ (fun i t h => hno i t (Or.inl h))
    have hmo : findFirstTag motionTags s = none :=
      findFirstTag_none_of_no_match _ _ (fun i t h => hno i t (Or.inr (Or.inl h)))
    have ha : findFirstTag armTags s = none :=
      findFirstTag_none_of_no_match _ _ (fun i t h => hno i t (Or.inr (Or.inr h)))
    rw [parseGesture, hs, hmo, ha]

/-- Witness for C6 on `"[wave] and [magic]"`: the tier-3 tag appears first
in the text, but the tier-1 tag `[magic]` (matching at position 11) wins. -/
theorem gesture_tier_priority_witness :
    ∃ j u, u ∈ specialTags ∧
      tagMatchAt ("[wave] and [magic]".toList) j u = true ∧
      (∀ k, k < j → ∀ v ∈ specialTags,
        tagMatchAt ("[wave] and [magic]".toList) k v = false) ∧
      parseGesture ("[wave] and [magic]".toList) = some u :=
  (gesture_tier_priority ("[wave] and [magic]".toList)).1 11 ("magic".toList)
    (by decide) (by decide)

/-! ### C10: the chat-history retention bound -/

/-- A viewer chat message. -/
def spamMsg : ChatMsg where
  username := "bob".toList
  text := "hi".toList
  kind := "viewer".toList
  timestamp := 0

/-- A stream that has received 101 viewer chat messages. -/
def spammedStream : Stream :=
  (List.replicate 101 spamMsg).foldl (fun s m => viewerChat m s)
    (Stream.init ("mao".toList) ("Mao".toList))

set_option maxRecDepth 4000 in
/-- Counterexample to claim C10 as stated: the viewer `chat:send` handler
(line 721) pushes to `chatHistory` with no `slice(-100)` trim, so after
101 viewer messages the history holds 101 > 100 messages. -/
theorem chat_history_unbounded_cex :
    spammedStream.chatHistory.length = 101 ∧
    ¬ (spammedStream.chatHistory.length ≤ 100) := by
  decide

theorem trim100_length (h : List ChatMsg) :
    (trim100 h).length = min h.length 100 := by
  rw [trim100]
  split
  · rw [List.length_drop]; omega
  · omega

/-- The producer `stream:chat` handler always stores the trimmed history
(the TTS outcome does not affect it). -/
theorem streamChat_chatHistory (tts : Option Str) (now : Nat) (text : Str)
    (s : Stream) :
    (streamChat tts now text s).chatHistory =
      trim100 (s.chatHistory ++ [mkAgentMsg now text s]) := by
  by_cases h : trimWs text = []
  · simp [streamChat, h]
  · cases tts with
    | none => simp [streamChat, h]
    | some p => simp [streamChat, h, playAudio]

/-- Claim C10, amended: after a producer utterance the history is trimmed
to the most recent 100 messages (in append order — the stored history is a
suffix of the previous history plus the new message), so the ≤ 100 bound
is preserved by producer appends; the viewer `chat:send` append performs
NO trim, so viewer messages can grow the history beyond 100. -/
theorem chat_history_bound (tts : Option Str) (now : Nat) (text : Str)
    (s : Stream) (msg : ChatMsg) :
    ((streamChat tts now text s).chatHistory.length ≤
        max s.chatHistory.length 100 ∧
     (s.chatHistory.length ≤ 100 →
        (streamChat tts now text s).chatHistory.length ≤ 100) ∧
     ∃ k, (streamChat tts now text s).chatHistory =
        (s.chatHistory ++ [mkAgentMsg now text s]).drop k) ∧
    (viewerChat msg s).chatHistory = s.chatHistory ++ [msg] := by
  refine ⟨⟨?_, ?_, ?_⟩, rfl⟩
  · rw [streamChat_chatHistory, trim100_length]
    simp only [List.length_append, List.length_cons, List.length_nil]
    omega
  · intro hle
    rw [streamChat_chatHistory, trim100_length]
    simp only [List.length_append, List.length_cons, List.length_nil]
    omega
  · rw [streamChat_chatHistory, trim100]
    split
    · exact ⟨_, rfl⟩
    · exact ⟨0, rfl⟩

/-- Witness for C10 (amended) on a concrete producer append to an empty
history. -/
theorem chat_history_bound_witness :
    (streamChat none 7 ("yo".toList)
        (Stream.init ("mao".toList) ("Mao".toList))).chatHistory.length ≤ 100 :=
  (chat_history_bound none 7 ("yo".toList)
      (Stream.init ("mao".toList) ("Mao".toList)) spamMsg).1.2.1 (by decide)

/-! ### Word-level lemmas about the scanners -/

theorem wordsGo_append_ws (c : Char) (hc : isWs c = true) (a : Str) :
    ∀ acc rest, wordsGo acc (a ++ c :: rest) = wordsGo acc a ++ wordsOf rest := by
  induction a with
  | nil =>
    intro acc rest
    by_cases h : acc = []
    · simp [h, wordsGo, hc, wordsOf]
    · simp [h, wordsGo, hc, wordsOf]
  | cons d a ih =>
    intro acc rest
    by_cases hd : isWs d = true
    · by_cases h : acc = []
      · simp [h, wordsGo, hd, ih]
      · simp [h, wordsGo, hd, ih]
    · simp [wordsGo, hd, ih]

theorem wordsOf_append_ws (c : Char) (hc : isWs c = true) (a rest : Str) :
    wordsOf (a ++ c :: rest) = wordsOf a ++ wordsOf rest :=
  wordsGo_append_ws c hc a [] rest

theorem wordsOf_ws_cons (c : Char) (hc : isWs c = true) (rest : Str) :
    wordsOf (c :: rest) = wordsOf rest := by
  simp [wordsOf, wordsGo, hc]

theorem wordsOf_all_ws (w : Str) (h : ∀ x ∈ w, isWs x = true) :
    wordsOf w = [] := by
  induction w with
  | nil => rfl
  | cons c rest ih =>
    rw [wordsOf_ws_cons c (h c (by simp))]
    exact ih (fun x hx => h x (by simp [hx]))

theorem wordsOf_append_all_ws (v w : Str) (h : ∀ x ∈ w, isWs x = true) :
    wordsOf (v ++ w) = wordsOf v := by
  cases w with
  | nil => simp
  | cons c rest =>
    rw [wordsOf_append_ws c (h c (by simp)) v rest,
      wordsOf_all_ws rest (fun x hx => h x (by simp [hx]))]
    simp

theorem wordsOf_dropWhile_ws (s : Str) :
    wordsOf (s.dropWhile isWs) = wordsOf s := by
  induction s with
  | nil => rfl
  | cons c rest ih =>
    by_cases h : isWs c = true
    · rw [List.dropWhile_cons_of_pos h, ih, wordsOf_ws_cons c h]
    · rw [List.dropWhile_cons_of_neg (by simp [h])]

theorem wordsOf_trimWs (s : Str) : wordsOf (trimWs s) = wordsOf s := by
  rw [trimWs]
  set u := s.dropWhile isWs with hu
  have h1 : wordsOf u = wordsOf s := wordsOf_dropWhile_ws s
  have hu2 : u = (u.reverse.dropWhile isWs).reverse ++
      (u.reverse.takeWhile isWs).reverse := by
    conv_lhs => rw [← List.reverse_reverse u,
      ← List.takeWhile_append_dropWhile isWs u.reverse]
    rw [List.reverse_append]
  have hws : ∀ x ∈ (u.reverse.takeWhile isWs).reverse, isWs x = true := by
    intro x hx
    rw [List.mem_reverse] at hx
    exact List.mem_takeWhile_imp hx
  calc wordsOf ((u.reverse.dropWhile isWs).reverse)
      = wordsOf ((u.reverse.dropWhile isWs).reverse ++
          (u.reverse.takeWhile isWs).reverse) :=
        (wordsOf_append_all_ws _ _ hws).symm
    _ = wordsOf u := by rw [← hu2]
    _ = wordsOf s := h1

theorem wordsOf_nil_of_trim_nil (s : Str) (h : trimWs s = []) :
    wordsOf s = [] := by
  rw [← wordsOf_trimWs, h]
  rfl

theorem wordsGo_all_nonws (acc w : Str) (hw : ∀ c ∈ w, isWs c = false)
    (hne : acc ≠ []) : wordsGo acc w = [acc.reverse ++ w] := by
  induction w generalizing acc with
  | nil => simp [wordsGo, hne]
  | cons c rest ih =>
    have hc : isWs c = false := hw c (by simp)
    rw [wordsGo]
    simp only [hc, Bool.false_eq_true, if_false]
    rw [ih (c :: acc) (fun d hd => hw d (by simp [hd])) (by simp)]
    simp

theorem wordsOf_single (w : Str) (hw : ∀ c ∈ w, isWs c = false)
    (hne : w ≠ []) : wordsOf w = [w] := by
  cases w with
  | nil => exact absurd rfl hne
  | cons c rest =>
    have hc : isWs c = false := hw c (by simp)
    rw [wordsOf, wordsGo]
    simp only [hc, Bool.false_eq_true, if_false]
    rw [wordsGo_all_nonws [c] rest (fun d hd => hw d (by simp [hd])) (by simp)]
    rfl

theorem wordsGo_mem (acc s : Str) (hacc : ∀ c ∈ acc, isWs c = false) :
    ∀ w ∈ wordsGo acc s, w ≠ [] ∧ ∀ c ∈ w, isWs c = false := by
  induction s generalizing acc with
  | nil =>
    intro w hw
    by_cases h : acc = []
    · simp [wordsGo, h] at hw
    · simp only [wordsGo, h, if_false, List.mem_singleton] at hw
      subst hw
      refine ⟨by simpa using h, ?_⟩
      intro c hc
      exact hacc c (by simpa using hc)
  | cons c rest ih =>
    intro w hw
    by_cases hws : isWs c = true
    · by_cases h : acc = []
      · rw [wordsGo] at hw
        simp only [hws, if_true, h, if_true] at hw
        exact ih [] (by simp) w hw
      · rw [wordsGo] at hw
        simp only [hws, if_true, h, if_false, List.mem_cons] at hw
        rcases hw with hw | hw
        · subst hw
          refine ⟨by simpa using h, ?_⟩
          intro d hd
          exact hacc d (by simpa using hd)
        · exact ih [] (by simp) w hw
    · rw [wordsGo] at hw
      simp only [hws, if_false] at hw
      refine ih (c :: acc) ?_ w hw
      intro d hd
      rcases List.mem_cons.1 hd with h | h
      · subst h; simpa using hws
      · exact hacc d h

theorem wordsOf_mem (s : Str) :
    ∀ w ∈ wordsOf s, w ≠ [] ∧ ∀ c ∈ w, isWs c = false :=
  wordsGo_mem [] s (by simp)

/-! ### Lemmas about joining and blocking -/

theorem wordsOf_joinSp (b : List Str)
    (hb : ∀ w ∈ b, w ≠ [] ∧ ∀ c ∈ w, isWs c = false) (hne : b ≠ []) :
    wordsOf (joinSp b) = b := by
  induction b with
  | nil => exact absurd rfl hne
  | cons w ws ih =>
    cases ws with
    | nil =>
      rw [joinSp]
      exact wordsOf_single w (fun c hc => (hb w (by simp)).2 c hc)
        (hb w (by simp)).1
    | cons x ws' =>
      show wordsOf (w ++ ' ' :: joinSp (x :: ws')) = w :: x :: ws'
      rw [wordsOf_append_ws ' ' (by decide) w (joinSp (x :: ws')),
        wordsOf_single w (fun c hc => (hb w (by simp)).2 c hc) (hb w (by simp)).1,
        ih (fun v hv => hb v (by simp [hv])) (by simp)]
      rfl

theorem joinSp_ne_nil (b : List Str) (hne : b ≠ []) (hw : ∀ w ∈ b, w ≠ []) :
    joinSp b ≠ [] := by
  cases b with
  | nil => exact absurd rfl hne
  | cons w ws =>
    cases ws with
    | nil => exact hw w (by simp)
    | cons x ws' =>
      show w ++ ' ' :: joinSp (x :: ws') ≠ []
      simp

theorem blocksGo_flatten (ws : List Str) :
    ∀ cur, (blocksGo cur ws).flatten = cur.reverse ++ ws := by
  induction ws with
  | nil =>
    intro cur
    by_cases h : cur = []
    · simp [blocksGo, h]
    · simp [blocksGo, h]
  | cons w ws ih =>
    intro cur
    by_cases h : 8 ≤ (w :: cur).length
    · rw [blocksGo]
      simp only [h, if_true, List.flatten_cons, ih []]
      simp
    · rw [blocksGo]
      simp only [h, if_false, ih (w :: cur)]
      simp

theorem blocksGo_blocks (ws : List Str) :
    ∀ cur, cur.length < 8 →
      ∀ b ∈ blocksGo cur ws, b ≠ [] ∧ b.length ≤ 8 := by
  induction ws with
  | nil =>
    intro cur hcur b hb
    by_cases h : cur = []
    · simp [blocksGo, h] at hb
    · simp only [blocksGo, h, if_false, List.mem_singleton] at hb
      subst hb
      constructor
      · simpa using h
      · simpa using Nat.le_of_lt hcur
  | cons w ws ih =>
    intro cur hcur b hb
    by_cases h : 8 ≤ (w :: cur).length
    · rw [blocksGo] at hb
      simp only [h, if_true, List.mem_cons] at hb
      rcases hb with hb | hb
      · subst hb
        constructor
        · simp
        · simp only [List.length_reverse, List.length_cons]
          simp only [List.length_cons] at h
          omega
      · exact ih [] (by simp) b hb
    · rw [blocksGo] at hb
      simp only [h, if_false] at hb
      refine ih (w :: cur) ?_ b hb
      simp only [List.length_cons]
      simp only [List.length_cons] at h
      omega

theorem blocks8_flatten (ws : List Str) : (blocks8 ws).flatten = ws := by
  rw [blocks8, blocksGo_flatten ws []]
  rfl

theorem blocks8_blocks (ws : List Str) :
    ∀ b ∈ blocks8 ws, b ≠ [] ∧ b.length ≤ 8 :=
  blocksGo_blocks ws [] (by simp)

theorem blocks8_mem_words (ws : List Str) (b : List Str) (w : Str)
    (hb : b ∈ blocks8 ws) (hw : w ∈ b) : w ∈ ws := by
  have : w ∈ (blocks8 ws).flatten := List.mem_flatten.2 ⟨b, hb, hw⟩
  rwa [blocks8_flatten ws] at this

/-! ### Per-sentence chunker lemmas -/

theorem processSentence_eq (sent : Str) :
    processSentence sent =
      if jsWords (trimWs sent) ≤ 10 then
        (if trimWs sent = [] then [] else [trimWs sent])
      else (blocks8 (wordsOf (trimWs sent))).map joinSp := rfl

theorem processSentence_words (sent : Str) :
    ((processSentence sent).map wordsOf).flatten = wordsOf sent := by
  rw [processSentence_eq]
  by_cases h10 : jsWords (trimWs sent) ≤ 10
  · rw [if_pos h10]
    by_cases ht : trimWs sent = []
    · rw [if_pos ht]
      exact (wordsOf_nil_of_trim_nil sent ht).symm
    · rw [if_neg ht]
      simp only [List.map_cons, List.map_nil, List.flatten_cons,
        List.flatten_nil, List.append_nil]
      exact wordsOf_trimWs sent
  · rw [if_neg h10, List.map_map]
    have hmap : (blocks8 (wordsOf (trimWs sent))).map (wordsOf ∘ joinSp) =
        (blocks8 (wordsOf (trimWs sent))).map id := by
      refine List.map_congr_left ?_
      intro b hb
      have hprops : ∀ w ∈ b, w ≠ [] ∧ ∀ c ∈ w, isWs c = false := by
        intro w hw
        exact wordsOf_mem (trimWs sent) w
          (blocks8_mem_words (wordsOf (trimWs sent)) b w hb hw)
      exact wordsOf_joinSp b hprops (blocks8_blocks _ b hb).1
    rw [hmap, List.map_id, blocks8_flatten, wordsOf_trimWs]

theorem processSentence_no_nil (sent : Str) :
    ∀ c ∈ processSentence sent, c ≠ [] := by
  intro c hc
  rw [processSentence_eq] at hc
  by_cases h10 : jsWords (trimWs sent) ≤ 10
  · rw [if_pos h10] at hc
    by_cases ht : trimWs sent = []
    · rw [if_pos ht] at hc
      simp at hc
    · rw [if_neg ht] at hc
      rw [List.mem_singleton] at hc
      subst hc
      exact ht
  · rw [if_neg h10, List.mem_map] at hc
    obtain ⟨b, hb, rfl⟩ := hc
    refine joinSp_ne_nil b (blocks8_blocks _ b hb).1 ?_
    intro w hw
    exact (wordsOf_mem (trimWs sent) w
      (blocks8_mem_words (wordsOf (trimWs sent)) b w hb hw)).1

theorem processSentence_word_bound (sent : Str) :
    ∀ c ∈ processSentence sent, (wordsOf c).length ≤ 10 := by
  intro c hc
  rw [processSentence_eq] at hc
  by_cases h10 : jsWords (trimWs sent) ≤ 10
  · rw [if_pos h10] at hc
    by_cases ht : trimWs sent = []
    · rw [if_pos ht] at hc
      simp at hc
    · rw [if_neg ht] at hc
      rw [List.mem_singleton] at hc
      subst hc
      rw [jsWords, if_neg ht] at h10
      exact h10
  · rw [if_neg h10, List.mem_map] at hc
    obtain ⟨b, hb, rfl⟩ := hc
    have hprops : ∀ w ∈ b, w ≠ [] ∧ ∀ c ∈ w, isWs c = false := by
      intro w hw
      exact wordsOf_mem (trimWs sent) w
        (blocks8_mem_words (wordsOf (trimWs sent)) b w hb hw)
    rw [wordsOf_joinSp b hprops (blocks8_blocks _ b hb).1]
    exact Nat.le_trans (blocks8_blocks _ b hb).2 (by omega)

/-! ### The sentence splitter preserves words -/

theorem sentGo_cons (skipWs : Bool) (acc : Str) (c : Char) (rest : Str) :
    sentGo skipWs acc (c :: rest) =
      if skipWs && isWs c then sentGo true acc rest
      else if isWs c && (match acc with | p :: _ => isSentEnd p | [] => false) then
        acc.reverse :: sentGo true [] rest
      else sentGo false (c :: acc) rest := rfl

theorem sentGo_words (s : Str) :
    ∀ skipWs acc, (skipWs = true → acc = []) →
      ((sentGo skipWs acc s).map wordsOf).flatten = wordsOf (acc.reverse ++ s) := by
  induction s with
  | nil =>
    intro skipWs acc _
    simp [sentGo]
  | cons c rest ih =>
    intro skipWs acc hinv
    rw [sentGo_cons]
    by_cases h1 : (skipWs && isWs c) = true
    · rw [if_pos h1]
      have h1' : skipWs = true ∧ isWs c = true := by simpa using h1
      have hacc : acc = [] := hinv h1'.1
      subst hacc
      rw [ih true [] (fun _ => rfl)]
      simp [wordsOf_ws_cons c h1'.2]
    · rw [if_neg (by simpa using h1)]
      clear hinv h1
      split
      · rename_i h2
        rw [Bool.and_eq_true] at h2
        simp only [List.map_cons, List.flatten_cons]
        rw [ih true [] (fun _ => rfl)]
        rw [wordsOf_append_ws c h2.1 acc.reverse rest]
        simp
      · rw [ih false (c :: acc) (by simp)]
        simp

theorem splitSentences_words (text : Str) :
    ((splitSentences text).map wordsOf).flatten = wordsOf text := by
  rw [splitSentences, sentGo_words text false [] (by simp)]
  rfl

theorem flatten_map_flatten (f : Str → List Str) (l : List (List Str)) :
    ((l.flatten).map f).flatten = (l.map (fun xs => ((xs.map f).flatten))).flatten := by
  induction l with
  | nil => rfl
  | cons xs l ih =>
    simp only [List.flatten_cons, List.map_append, List.flatten_append,
      List.map_cons, ih]

theorem filter_nil_words (l : List Str) :
    ((l.filter (fun c => c ≠ [])).map wordsOf).flatten =
      (l.map wordsOf).flatten := by
  induction l with
  | nil => rfl
  | cons c l ih =>
    rw [List.filter_cons]
    by_cases h : c = []
    · subst h
      rw [if_neg (by simp), ih]
      simp [wordsOf, wordsGo]
    · rw [if_pos (by simp [h])]
      simp only [List.map_cons, List.flatten_cons, ih]

/-! ### C8: how long sentences are actually split -/

/-- A single 12-word sentence with a clause comma after the third word. -/
def clauseText : Str := "a1 a2 a3, b1 b2 b3 b4 b5 b6 b7 b8 b9.".toList

/-- Counterexample to claim C8 as stated: the chunker has NO
clause-punctuation stage.  The claim requires the 12-word sentence to be
split at the comma, making `"a1 a2 a3,"` (4 words ≤ 12) one chunk; instead
the code hard-splits the sentence into groups of 8 words straight away, so
the first chunk runs through the comma. -/
theorem chunker_ignores_clause_punct_cex :
    splitIntoSubtitleChunks clauseText =
      ["a1 a2 a3, b1 b2 b3 b4 b5".toList, "b6 b7 b8 b9.".toList] ∧
    ("a1 a2 a3,".toList) ∉ splitIntoSubtitleChunks clauseText := by
  decide

/-- Claim C8, amended: the chunker splits on sentence-ending punctuation;
a sentence of ≤ 10 words (JS word count of its trimmed text) becomes one
chunk verbatim; a longer sentence is hard-split directly into groups of at
most 8 words (no clause-punctuation stage), preserving all its words in
order; consequently every chunk holds at most 10 words and is nonempty. -/
theorem chunker_hard_split (text : Str) :
    (∀ c ∈ splitIntoSubtitleChunks text, c ≠ [] ∧ (wordsOf c).length ≤ 10) ∧
    (∀ sent ∈ splitSentences text, 10 < jsWords (trimWs sent) →
      ((processSentence sent).map wordsOf = blocks8 (wordsOf (trimWs sent)) ∧
       (∀ b ∈ blocks8 (wordsOf (trimWs sent)), b ≠ [] ∧ b.length ≤ 8) ∧
       (blocks8 (wordsOf (trimWs sent))).flatten = wordsOf (trimWs sent))) ∧
    (∀ sent ∈ splitSentences text, jsWords (trimWs sent) ≤ 10 →
      trimWs sent ≠ [] → processSentence sent = [trimWs sent]) := by
  refine ⟨?_, ?_, ?_⟩
  · intro c hc
    rw [splitIntoSubtitleChunks, List.mem_filter] at hc
    have hc1 := hc.1
    rw [List.mem_flatten] at hc1
    obtain ⟨chs, hchs, hcmem⟩ := hc1
    rw [List.mem_map] at hchs
    obtain ⟨sent, _, rfl⟩ := hchs
    exact ⟨processSentence_no_nil sent c hcmem,
      processSentence_word_bound sent c hcmem⟩
  · intro sent _ h10
    have h10' : ¬ jsWords (trimWs sent) ≤ 10 := by omega
    refine ⟨?_, blocks8_blocks _, blocks8_flatten _⟩
    rw [processSentence_eq, if_neg h10', List.map_map]
    refine List.map_congr_left ?_ |>.trans (List.map_id _)
    intro b hb
    have hprops : ∀ w ∈ b, w ≠ [] ∧ ∀ c ∈ w, isWs c = false := by
      intro w hw
      exact wordsOf_mem (trimWs sent) w
        (blocks8_mem_words (wordsOf (trimWs sent)) b w hb hw)
    exact wordsOf_joinSp b hprops (blocks8_blocks _ b hb).1
  · intro sent _ h10 hne
    rw [processSentence_eq, if_pos h10, if_neg hne]

/-- Witness for C8 (amended) on the concrete 12-word sentence: its chunks
are exactly the 8-word blocks of its word list. -/
theorem chunker_hard_split_witness :
    (processSentence clauseText).map wordsOf =
      blocks8 (wordsOf (trimWs clauseText)) ∧
    (∀ b ∈ blocks8 (wordsOf (trimWs clauseText)), b ≠ [] ∧ b.length ≤ 8) ∧
    (blocks8 (wordsOf (trimWs clauseText))).flatten =
      wordsOf (trimWs clauseText) :=
  (chunker_hard_split clauseText).2.1 clauseText (by decide) (by decide)

/-! ### C9: subtitle chunk coverage -/

/-- Counterexample to claim C9 as stated: the whitespace-only input `" "`
is a non-empty string whose chunk list is empty (the lone sentence trims
to the empty string and is dropped). -/
theorem chunk_space_empty_cex :
    splitIntoSubtitleChunks (" ".toList) = [] ∧ (" ".toList : Str) ≠ [] := by
  decide

/-- Claim C9, amended: concatenating the chunks (ignoring the inserted
whitespace, i.e. at the level of word lists) reproduces every word of the
input exactly once, in order; the empty string yields no chunks; and the
chunk list is non-empty whenever the input contains at least one word
(some non-whitespace character) — a non-empty but all-whitespace input
also yields no chunks. -/
theorem chunk_coverage (text : Str) :
    ((splitIntoSubtitleChunks text).map wordsOf).flatten = wordsOf text ∧
    splitIntoSubtitleChunks [] = [] ∧
    (wordsOf text ≠ [] → splitIntoSubtitleChunks text ≠ []) := by
  have hcov : ((splitIntoSubtitleChunks text).map wordsOf).flatten
      = wordsOf text := by
    rw [splitIntoSubtitleChunks, filter_nil_words, flatten_map_flatten,
      List.map_map]
    have hcong : (splitSentences text).map
        ((fun xs => ((xs.map wordsOf).flatten)) ∘ processSentence) =
        (splitSentences text).map wordsOf :=
      List.map_congr_left (fun sent _ => processSentence_words sent)
    rw [hcong, splitSentences_words]
  refine ⟨hcov, by decide, ?_⟩
  intro hw hchunks
  rw [hchunks] at hcov
  exact hw (hcov.symm.trans rfl)

/-- Witness for C9 (amended): a two-word input yields a non-empty chunk
list. -/
theorem chunk_coverage_witness :
    splitIntoSubtitleChunks ("hi there".toList) ≠ [] :=
  (chunk_coverage ("hi there".toList)).2.2 (by decide)

/-! ### C7: bracket-free strings are fixed points of the tag machinery -/

/-- No character of `t` lowercases to `'['` (in particular `'[' ∉ t`). -/
def noLB (t : Str) : Prop := '[' ∉ lowerStr t

instance (t : Str) : Decidable (noLB t) :=
  inferInstanceAs (Decidable ('[' ∉ lowerStr t))

theorem noLB_iff (t : Str) : noLB t ↔ ∀ c ∈ t, c.toLower ≠ '[' := by
  rw [noLB, lowerStr]
  simp [List.mem_map]

theorem tagHere_head (c : Char) (u : Str) (t : Str)
    (hc : c.toLower ≠ '[') : tagHere (c :: u) t = false := by
  rw [tagHere, lowerStr, List.map_cons, List.cons_append, pfxB]
  have hbeq : ('[' == c.toLower) = false := by
    simp only [beq_eq_false_iff_ne, ne_eq]
    exact fun h => hc h.symm
  rw [hbeq, Bool.false_and]

theorem matchAlt_head_none (tags : List Str) (c : Char) (u : Str)
    (hc : c.toLower ≠ '[') : matchAlt tags (c :: u) = none := by
  rw [matchAlt_eq_none_iff]
  intro t _
  exact tagHere_head c u t hc

theorem findFirstTag_noLB (tags : List Str) (t : Str) (h : noLB t) :
    findFirstTag tags t = none := by
  rw [noLB_iff] at h
  induction t with
  | nil => rfl
  | cons c rest ih =>
    rw [findFirstTag, matchAlt_head_none tags c rest (h c (by simp))]
    exact ih (fun d hd => h d (by simp [hd]))

theorem replaceGo_zero_cons (m : Str → Option Nat) (c : Char) (rest : Str) :
    replaceGo m 0 (c :: rest) =
      match m (c :: rest) with
      | some n => replaceGo m (n - 1) rest
      | none => c :: replaceGo m 0 rest := rfl

theorem replaceGo_noLB (m : Str → Option Nat)
    (hm : ∀ c u, c.toLower ≠ '[' → m (c :: u) = none) (t : Str)
    (h : noLB t) : replaceGo m 0 t = t := by
  rw [noLB_iff] at h
  induction t with
  | nil => rfl
  | cons c rest ih =>
    rw [replaceGo_zero_cons, hm c rest (h c (by simp))]
    show c :: replaceGo m 0 rest = c :: rest
    rw [ih (fun d hd => h d (by simp [hd]))]

theorem altLen_head_none (tags : List Str) (c : Char) (u : Str)
    (hc : c.toLower ≠ '[') : altLen tags (c :: u) = none := by
  rw [altLen, matchAlt_head_none tags c u hc]
  rfl

theorem catchAllLen_head_none (c : Char) (u : Str) (hc : c.toLower ≠ '[') :
    catchAllLen (c :: u) = none := by
  have hne : c ≠ '[' := by
    intro h
    exact hc (by rw [h]; decide)
  rw [catchAllLen]
  rw [if_neg hne]

theorem mediaLen_head_none (kind : Str) (c : Char) (u : Str)
    (hc : c.toLower ≠ '[') : mediaLen kind (c :: u) = none := by
  rw [mediaLen]
  have hbeq : pfxB ('[' :: (kind ++ [':'])) (lowerStr (c :: u)) = false := by
    rw [lowerStr, List.map_cons, pfxB]
    have : ('[' == c.toLower) = false := by
      simp only [beq_eq_false_iff_ne, ne_eq]
      exact fun h => hc h.symm
    rw [this, Bool.false_and]
  simp only [hbeq, Bool.false_eq_true, if_false]

theorem replaceGlobal_noLB_all (t : Str) (h : noLB t) :
    (replaceGlobal (altLen expressionTags) t = t ∧
     replaceGlobal (altLen gestureStripTags) t = t ∧
     replaceGlobal (altLen lookTags) t = t ∧
     replaceGlobal (altLen effectTags) t = t ∧
     replaceGlobal (mediaLen ("gif".toList)) t = t ∧
     replaceGlobal (mediaLen ("youtube".toList)) t = t ∧
     replaceGlobal catchAllLen t = t) := by
  refine ⟨?_, ?_, ?_, ?_, ?_, ?_, ?_⟩
  · exact replaceGo_noLB _ (fun c u hc => altLen_head_none _ c u hc) t h
  · exact replaceGo_noLB _ (fun c u hc => altLen_head_none _ c u hc) t h
  · exact replaceGo_noLB _ (fun c u hc => altLen_head_none _ c u hc) t h
  · exact replaceGo_noLB _ (fun c u hc => altLen_head_none _ c u hc) t h
  · exact replaceGo_noLB _ (fun c u hc => mediaLen_head_none _ c u hc) t h
  · exact replaceGo_noLB _ (fun c u hc => mediaLen_head_none _ c u hc) t h
  · exact replaceGo_noLB _ (fun c u hc => catchAllLen_head_none c u hc) t h

/-! ### Whitespace normal forms -/

/-- Does the string start with a whitespace character? -/
def headIsWs : Str → Bool
  | [] => false
  | d :: _ => isWs d

/-- Whitespace-normal form: every whitespace character is a single `' '`
not followed by further whitespace. -/
def wsOk : Str → Bool
  | [] => true
  | c :: rest => (!isWs c || (c == ' ' && !headIsWs rest)) && wsOk rest

theorem dropWhile_head (p : Char → Bool) (u : Str) (d : Char) (v : Str)
    (h : u.dropWhile p = d :: v) : p d = false := by
  induction u with
  | nil => simp at h
  | cons c rest ih =>
    by_cases hc : p c = true
    · rw [List.dropWhile_cons_of_pos hc] at h
      exact ih h
    · rw [List.dropWhile_cons_of_neg (by simpa using hc)] at h
      injection h with h1 _
      rw [← h1]
      simpa using hc

theorem headIsWs_dropWhile (u : Str) : headIsWs (u.dropWhile isWs) = false := by
  cases h : u.dropWhile isWs with
  | nil => rfl
  | cons d v =>
    rw [headIsWs]
    exact dropWhile_head isWs u d v h

theorem collapseGo_true_eq (s : Str) :
    collapseGo true s = collapseGo false (s.dropWhile isWs) := by
  induction s with
  | nil => rfl
  | cons c rest ih =>
    by_cases hc : isWs c = true
    · rw [List.dropWhile_cons_of_pos hc, ← ih]
      simp [collapseGo, hc]
    · rw [List.dropWhile_cons_of_neg (by simpa using hc)]
      simp [collapseGo, hc]

theorem headIsWs_collapseGo_false (u : Str) :
    headIsWs (collapseGo false u) = headIsWs u := by
  cases u with
  | nil => rfl
  | cons d v =>
    by_cases hd : isWs d = true
    · simp [collapseGo, hd, headIsWs]
      decide
    · simp [collapseGo, hd, headIsWs]

theorem collapseGo_length (s : Str) : ∀ b, (collapseGo b s).length ≤ s.length := by
  induction s with
  | nil => intro b; simp [collapseGo]
  | cons c rest ih =>
    intro b
    by_cases hc : isWs c = true
    · cases b with
      | true =>
        simp only [collapseGo, hc, if_true]
        exact Nat.le_succ_of_le (ih true)
      | false =>
        simp only [collapseGo, hc, if_true, Bool.false_eq_true, if_false,
          List.length_cons]
        exact Nat.succ_le_succ (ih true)
    · simp only [collapseGo, hc, Bool.false_eq_true, if_false, List.length_cons]
      exact Nat.succ_le_succ (ih false)

theorem wsOk_collapseGo (n : Nat) :
    ∀ s : Str, s.length ≤ n → wsOk (collapseGo false s) = true := by
  induction n with
  | zero =>
    intro s hs
    have : s = [] := List.eq_nil_of_length_eq_zero (by omega)
    subst this
    rfl
  | succ n ih =>
    intro s hs
    cases s with
    | nil => rfl
    | cons c rest =>
      by_cases hc : isWs c = true
      · rw [show collapseGo false (c :: rest) = ' ' :: collapseGo true rest by
          simp [collapseGo, hc]]
        rw [collapseGo_true_eq]
        rw [wsOk]
        have hhead : headIsWs (collapseGo false (rest.dropWhile isWs)) = false := by
          rw [headIsWs_collapseGo_false, headIsWs_dropWhile]
        rw [hhead]
        have hrec : wsOk (collapseGo false (rest.dropWhile isWs)) = true := by
          refine ih _ ?_
          have h1 := length_dropWhile_le' isWs rest
          simp only [List.length_cons] at hs
          omega
        rw [hrec]
        decide
      · rw [show collapseGo false (c :: rest) = c :: collapseGo false rest by
          simp [collapseGo, hc]]
        rw [wsOk]
        have hrec : wsOk (collapseGo false rest) = true := by
          refine ih _ ?_
          simp only [List.length_cons] at hs
          omega
        have hc' : isWs c = false := by simpa using hc
        rw [hrec, hc']
        simp

theorem wsOk_collapseWs (s : Str) : wsOk (collapseWs s) = true :=
  wsOk_collapseGo s.length s (Nat.le_refl _)

theorem collapseGo_of_wsOk (u : Str) (h : wsOk u = true) :
    collapseGo false u = u := by
  induction u with
  | nil => rfl
  | cons c rest ih =>
    rw [wsOk, Bool.and_eq_true] at h
    by_cases hc : isWs c = true
    · have h1 : (c == ' ') = true ∧ headIsWs rest = false := by
        have := h.1
        rw [hc] at this
        simpa using this
      have hcsp : c = ' ' := by simpa using h1.1
      rw [show collapseGo false (c :: rest) = ' ' :: collapseGo true rest by
        simp [collapseGo, hc]]
      rw [collapseGo_true_eq]
      have hdw : rest.dropWhile isWs = rest := by
        cases rest with
        | nil => rfl
        | cons d v =>
          have : isWs d = false := by
            have := h1.2
            rwa [headIsWs] at this
          rw [List.dropWhile_cons_of_neg (by simpa using this)]
      rw [hdw, ih h.2, hcsp]
    · rw [show collapseGo false (c :: rest) = c :: collapseGo false rest by
        simp [collapseGo, hc]]
      rw [ih h.2]

theorem wsOk_suffix (c : Char) (rest : Str) (h : wsOk (c :: rest) = true) :
    wsOk rest = true := by
  rw [wsOk, Bool.and_eq_true] at h
  exact h.2

theorem wsOk_dropWhile (u : Str) (h : wsOk u = true) :
    wsOk (u.dropWhile isWs) = true := by
  induction u with
  | nil => rfl
  | cons c rest ih =>
    by_cases hc : isWs c = true
    · rw [List.dropWhile_cons_of_pos hc]
      exact ih (wsOk_suffix c rest h)
    · rwa [List.dropWhile_cons_of_neg (by simpa using hc)]

theorem wsOk_prefix (v w : Str) (h : wsOk (v ++ w) = true) : wsOk v = true := by
  induction v with
  | nil => rfl
  | cons c v' ih =>
    rw [List.cons_append, wsOk, Bool.and_eq_true] at h
    rw [wsOk, Bool.and_eq_true]
    refine ⟨?_, ih h.2⟩
    have h1 := h.1
    by_cases hc : isWs c = true
    · rw [hc] at h1 ⊢
      simp only [Bool.not_true, Bool.false_or] at h1 ⊢
      rw [Bool.and_eq_true] at h1 ⊢
      refine ⟨h1.1, ?_⟩
      cases v' with
      | nil => rfl
      | cons d u =>
        have := h1.2
        rwa [List.cons_append, headIsWs] at this
    · have hc' : isWs c = false := by simpa using hc
      rw [hc']
      simp

theorem wsOk_trimWs (u : Str) (h : wsOk u = true) :
    wsOk (trimWs u) = true := by
  rw [trimWs]
  set u' := u.dropWhile isWs with hu'
  have h1 : wsOk u' = true := wsOk_dropWhile u h
  have hu2 : u' = (u'.reverse.dropWhile isWs).reverse ++
      (u'.reverse.takeWhile isWs).reverse := by
    conv_lhs => rw [← List.reverse_reverse u',
      ← List.takeWhile_append_dropWhile isWs u'.reverse]
    rw [List.reverse_append]
  rw [hu2] at h1
  exact wsOk_prefix _ _ h1

/-! ### Trim idempotence and assembly of the stripping fixed point -/

theorem trim_decomp (u : Str) :
    u.dropWhile isWs = trimWs u ++
      ((u.dropWhile isWs).reverse.takeWhile isWs).reverse := by
  rw [trimWs]
  conv_lhs => rw [← List.reverse_reverse (u.dropWhile isWs),
    ← List.takeWhile_append_dropWhile isWs (u.dropWhile isWs).reverse]
  rw [List.reverse_append]

theorem trimWs_head (u : Str) (c : Char) (v : Str) (h : trimWs u = c :: v) :
    isWs c = false := by
  have hd := trim_decomp u
  rw [h, List.cons_append] at hd
  exact dropWhile_head isWs u c _ hd

theorem trimWs_idem (u : Str) : trimWs (trimWs u) = trimWs u := by
  have h1 : (trimWs u).dropWhile isWs = trimWs u := by
    cases ht : trimWs u with
    | nil => rfl
    | cons c v =>
      rw [List.dropWhile_cons_of_neg (by simpa using trimWs_head u c v ht)]
  have h2 : (trimWs u).reverse.dropWhile isWs = (trimWs u).reverse := by
    have hrw : (trimWs u).reverse = (u.dropWhile isWs).reverse.dropWhile isWs := by
      rw [trimWs, List.reverse_reverse]
    rw [hrw]
    cases ht : (u.dropWhile isWs).reverse.dropWhile isWs with
    | nil => rfl
    | cons c v =>
      rw [List.dropWhile_cons_of_neg
        (by simpa using dropWhile_head isWs _ c v ht)]
  conv_lhs => rw [trimWs]
  rw [h1, h2, List.reverse_reverse]

theorem stripTags_eq (s : Str) : stripTags s =
    trimWs (collapseWs
      (replaceGlobal catchAllLen
        (replaceGlobal (mediaLen ("youtube".toList))
          (replaceGlobal (mediaLen ("gif".toList))
            (replaceGlobal (altLen effectTags)
              (replaceGlobal (altLen lookTags)
                (replaceGlobal (altLen gestureStripTags)
                  (replaceGlobal (altLen expressionTags) s)))))))) := rfl

theorem collapseWs_stripTags (s : Str) :
    collapseWs (stripTags s) = stripTags s := by
  rw [stripTags_eq s]
  exact collapseGo_of_wsOk _ (wsOk_trimWs _ (wsOk_collapseWs _))

theorem trimWs_stripTags (s : Str) : trimWs (stripTags s) = stripTags s := by
  rw [stripTags_eq s]
  exact trimWs_idem _

/-! ### C7: the stripping/idempotence claim -/

/-- A text whose nested brackets defeat single-pass stripping: removing
`[abc]` splices the remaining characters into the recognized gesture tag
`[wave]`. -/
def nestedTagText : Str := "[[abc]wave]".toList

/-- Counterexample to claim C7 as stated: `stripTags` is a fixed sequence
of single-pass global replaces, so on `"[[abc]wave]"` the catch-all pass
removes `[abc]` and leaves `"[wave]"` — a recognized (gesture) bracketed
directive survives in the display text, stripping is NOT idempotent, and
re-parsing the display text yields gesture `wave`, not none. -/
theorem strip_not_idempotent_cex :
    stripTags nestedTagText = "[wave]".toList ∧
    stripTags (stripTags nestedTagText) ≠ stripTags nestedTagText ∧
    parseGesture (stripTags nestedTagText) = some ("wave".toList) := by
  decide

/-- Claim C7, amended: whenever the produced display text contains no
(case-insensitive) `'['` character — in particular whenever stripping did
not splice a new bracketed token together — the display text is a fixed
point: all seven tag-replacement passes, the whitespace collapsing and the
trimming leave it unchanged, so a second parse returns the identical
display text with default expression `neutral` and no gesture. -/
theorem strip_idempotent_noLB (s : Str) (h : noLB (stripTags s)) :
    stripTags (stripTags s) = stripTags s ∧
    parseExpression (stripTags s) = "neutral".toList ∧
    parseGesture (stripTags s) = none := by
  have hpass := replaceGlobal_noLB_all (stripTags s) h
  refine ⟨?_, ?_, ?_⟩
  · rw [stripTags_eq (stripTags s), hpass.1, hpass.2.1, hpass.2.2.1,
      hpass.2.2.2.1, hpass.2.2.2.2.1, hpass.2.2.2.2.2.1, hpass.2.2.2.2.2.2,
      collapseWs_stripTags, trimWs_stripTags]
  · rw [parseExpression, findFirstTag_noLB expressionTags _ h]
    rfl
  · rw [parseGesture, findFirstTag_noLB specialTags _ h,
      findFirstTag_noLB motionTags _ h, findFirstTag_noLB armTags _ h]

/-- Witness for C7 (amended) on a concrete tagged utterance whose display
text `"hello world"` is bracket-free. -/
theorem strip_idempotent_noLB_witness :
    stripTags (stripTags ("[happy] hello [wave] world".toList)) =
      stripTags ("[happy] hello [wave] world".toList) ∧
    parseExpression (stripTags ("[happy] hello [wave] world".toList)) =
      "neutral".toList ∧
    parseGesture (stripTags ("[happy] hello [wave] world".toList)) = none :=
  strip_idempotent_noLB ("[happy] hello [wave] world".toList) (by decide)

end ClawStream
